import Mathlib

set_option maxHeartbeats 1000000

namespace GhMirror

/-! Shallow embedding of the GitHub repository mirror tool.

The embedding covers:
* `parseRepoUrl` — the locator parser shared by `src/src/lib/github.ts` and the
  server function (`src/unnamed/part_002`);
* `mirrorRepoServer` — the server-side orchestration (`src/unnamed/part_002`,
  function `mirrorRepo`), phase by phase, together with the `serve` wrapper;
* `cloneRepoClient` — the client-side orchestration (`src/src/lib/github.ts`,
  function `cloneRepo`, with `validateRepo` and `deleteAllContents`);
* `parseIcon` / `mirrorRepoClientSide` / `handleClone` — the caller pipeline of
  `src/unnamed/part_000` and the page's `handleClone` catch handler.

Remote effects are modelled by a state monad carrying the emitted log lines,
the ordered trace of API calls, a fresh-id counter for created objects and the
destination ref table.  Concurrent windows of the batch copy engine are
modelled sequentially; log emission is per window in the source as well, so
the observable log stream is unchanged.  Client-side log severities are
elided (the claims about that path concern only message order and content). -/

/-- Severity of a log entry, as in the client LogEntry type. -/
inductive LogType
  | info
  | success
  | error
  | warn
  deriving DecidableEq, Repr

/-- Owner/name pair identifying a repository. -/
structure RepoId where
  owner : String
  name : String
  deriving DecidableEq, Repr

/-- Result of the repository lookup endpoint. -/
structure RepoData where
  fullName : String
  isPrivate : Bool
  defaultBranch : String
  deriving DecidableEq, Repr

/-- One entry of a recursive tree listing returned by the source API. -/
structure SourceTreeEntry where
  path : String
  sha : String
  type : String
  mode : Option String
  deriving DecidableEq, Repr

/-- One entry of the branch enumeration. -/
structure BranchInfo where
  name : String
  commitSha : String
  deriving DecidableEq, Repr

/-- Blob payload as returned by the blob endpoint. -/
structure BlobData where
  content : String
  encoding : String
  deriving DecidableEq, Repr

/-- A tree entry submitted to the destination tree-creation endpoint. -/
structure NewTreeEntry where
  path : String
  mode : String
  type : String
  sha : String
  deriving DecidableEq, Repr

/-- One remote API call, recorded in the run trace.  Creation calls carry the
object id they returned. -/
inductive ApiCall
  | getRepo (r : RepoId)
  | listBranches (r : RepoId) (page : Nat)
  | getTree (r : RepoId) (ref : String)
  | getBlob (r : RepoId) (sha : String)
  | createBlob (r : RepoId) (content : String) (encoding : String) (sha : String)
  | createTree (r : RepoId) (entries : List NewTreeEntry) (sha : String)
  | createCommit (r : RepoId) (message : String) (tree : String) (parents : List String) (sha : String)
  | getRef (r : RepoId) (branch : String)
  | updateRef (r : RepoId) (branch : String) (sha : String)
  | createRef (r : RepoId) (branch : String) (sha : String)
  deriving DecidableEq, Repr

/-- Association list lookup (first match wins). -/
def lookupA {α β : Type} [DecidableEq α] : List (α × β) → α → Option β
  | [], _ => none
  | (k, v) :: rest, a => if k = a then some v else lookupA rest a

/-- The remote world a run interacts with: repository metadata, the source
branch list, source trees keyed by the ref string they are fetched at, source
blobs keyed by sha, and the initial ref heads.  A missing key makes the
corresponding remote call fail (a non-2xx response). -/
structure Env where
  repos : List (RepoId × RepoData)
  branches : List BranchInfo
  trees : List ((RepoId × String) × List SourceTreeEntry)
  blobs : List ((RepoId × String) × BlobData)
  initRefs : List ((RepoId × String) × String)

/-- Mutable run state: emitted logs, recorded API-call trace, fresh-id
counter for created objects, and the current ref table. -/
structure MSt where
  logs : List String
  trace : List ApiCall
  fresh : Nat
  refs : List ((RepoId × String) × String)
  deriving DecidableEq, Repr

/-- The effect monad: state passing with string-message exceptions, mirroring
`ghFetch` throwing on a non-2xx response. -/
def M (α : Type) : Type := MSt → Except String α × MSt

def mret {α : Type} (a : α) : M α := fun s => (Except.ok a, s)

def mbind {α β : Type} (m : M α) (f : α → M β) : M β := fun s =>
  match m s with
  | (Except.ok a, s1) => f a s1
  | (Except.error e, s1) => (Except.error e, s1)

instance : Monad M where
  pure := mret
  bind := mbind

/-- Throwing mirrors a JS `throw new Error(e)`: logs and already-issued calls
persist, control aborts. -/
def mthrow {α : Type} (e : String) : M α := fun s => (Except.error e, s)

/-- JS `try`/`catch`. -/
def mcatch {α : Type} (m : M α) (h : String → M α) : M α := fun s =>
  match m s with
  | (Except.ok a, s1) => (Except.ok a, s1)
  | (Except.error e, s1) => h e s1

def logM (msg : String) : M Unit := fun s => (Except.ok (), { s with logs := s.logs ++ [msg] })

def recordM (c : ApiCall) : M Unit := fun s => (Except.ok (), { s with trace := s.trace ++ [c] })

def freshShaM (tag : String) : M String := fun s =>
  (Except.ok (tag ++ toString s.fresh), { s with fresh := s.fresh + 1 })

def readState : M MSt := fun s => (Except.ok s, s)

def modifySt (f : MSt → MSt) : M Unit := fun s => (Except.ok (), f s)

/-! Remote primitives (Object-Graph Client). -/

def getRepoM (env : Env) (r : RepoId) : M RepoData := do
  recordM (ApiCall.getRepo r)
  match lookupA env.repos r with
  | some d => pure d
  | none => mthrow ("GitHub API 404: repo " ++ r.owner ++ "/" ++ r.name)

def getTreeM (env : Env) (r : RepoId) (ref : String) : M (List SourceTreeEntry) := do
  recordM (ApiCall.getTree r ref)
  match lookupA env.trees (r, ref) with
  | some t => pure t
  | none => mthrow ("GitHub API 404: tree " ++ ref)

def getBlobM (env : Env) (r : RepoId) (sha : String) : M BlobData := do
  recordM (ApiCall.getBlob r sha)
  match lookupA env.blobs (r, sha) with
  | some b => pure b
  | none => mthrow ("GitHub API 404: blob " ++ sha)

def createBlobM (r : RepoId) (content encoding : String) : M String := do
  let sha ← freshShaM "blob"
  recordM (ApiCall.createBlob r content encoding sha)
  pure sha

def createTreeM (r : RepoId) (entries : List NewTreeEntry) : M String := do
  let sha ← freshShaM "tree"
  recordM (ApiCall.createTree r entries sha)
  pure sha

def createCommitM (r : RepoId) (message tree : String) (parents : List String) : M String := do
  let sha ← freshShaM "commit"
  recordM (ApiCall.createCommit r message tree parents sha)
  pure sha

def getRefM (r : RepoId) (branch : String) : M String := do
  recordM (ApiCall.getRef r branch)
  let st ← readState
  match lookupA st.refs (r, branch) with
  | some sha => pure sha
  | none => mthrow ("GitHub API 404: ref " ++ branch)

def updateRefM (r : RepoId) (branch sha : String) : M Unit := do
  recordM (ApiCall.updateRef r branch sha)
  modifySt (fun s => { s with refs := ((r, branch), sha) :: s.refs })

def createRefM (r : RepoId) (branch sha : String) : M Unit := do
  recordM (ApiCall.createRef r branch sha)
  let st ← readState
  match lookupA st.refs (r, branch) with
  | some _ => mthrow "GitHub API 422: Reference already exists"
  | none => modifySt (fun s => { s with refs := ((r, branch), sha) :: s.refs })

/-! The locator parser.  `parseRepoUrl` first strips one trailing `.git`,
then searches for the leftmost position where the pattern
`github.com/<seg>/<seg>` (two nonempty slash-free segments) matches, exactly
like the source regular expression match. -/

def hostPat : List Char := "github.com/".data

/-- Anchored match of the regular expression at the head of the character
list: the literal host pattern, then a nonempty slash-free owner segment, a
slash, and a nonempty slash-free name segment. -/
def matchHostAt (cs : List Char) : Option (String × String) :=
  if hostPat.isPrefixOf cs then
    let rest := cs.drop hostPat.length
    let owner := rest.takeWhile (fun c => c ≠ '/')
    if owner.isEmpty then none
    else
      match rest.dropWhile (fun c => c ≠ '/') with
      | '/' :: r2 =>
        let repo := r2.takeWhile (fun c => c ≠ '/')
        if repo.isEmpty then none
        else some (String.mk owner, String.mk repo)
      | _ => none
  else none

/-- Leftmost unanchored match, as the source `String.prototype.match`. -/
def findHostMatch : List Char → Option (String × String)
  | [] => none
  | c :: rest =>
    match matchHostAt (c :: rest) with
    | some r => some r
    | none => findHostMatch rest

/-- Strip one trailing `.git`, as `url.replace` with an anchored suffix
pattern does. -/
def dropGitSuffix (cs : List Char) : List Char :=
  if List.isSuffixOf ".git".data cs then cs.take (cs.length - 4) else cs

/-- The locator parser of `github.ts` and of the server function: `none`
models the thrown invalid-URL error. -/
def parseRepoUrl (url : String) : Option (String × String) :=
  findHostMatch (dropGitSuffix url.data)

/-! The batch copy engine.  The source partitions the blob list into
consecutive windows (size 5 client-side, 10 server-side), copies one window,
then (in the default-branch loops) logs cumulative progress. -/

def serverProgressMsg (k n : Nat) : String :=
  "📦 " ++ toString k ++ "/" ++ toString n ++ " arquivos copiados"

def clientProgressMsg (k n : Nat) : String :=
  "Copiados " ++ toString k ++ "/" ++ toString n ++ " arquivos..."

def mapMList {α β : Type} (f : α → M β) : List α → M (List β)
  | [] => pure []
  | a :: rest => do
    let b ← f a
    let bs ← mapMList f rest
    pure (b :: bs)

/-- Consecutive windows of size `w` (the slices `l.slice(i, i + w)` of the
source loops), built by one structural pass; `cur` is the window being
filled. -/
def windowsAux {α : Type} (w : Nat) (cur : List α) : List α → List (List α)
  | [] => if cur.isEmpty then [] else [cur]
  | a :: l =>
    if cur.length + 1 < w then windowsAux w (cur ++ [a]) l
    else (cur ++ [a]) :: windowsAux w [] l

def windows {α : Type} (w : Nat) (l : List α) : List (List α) := windowsAux w [] l

/-- The window loop: copy one window, then (in the default-branch loops) log
cumulative progress.  `done` counts entries of earlier windows, so
`done + wdw.length` is the source's `Math.min(i + W, total)` for the slices
produced by `windows`. -/
def copyWindows (copyOne : SourceTreeEntry → M NewTreeEntry)
    (mkMsg : Option (Nat → Nat → String)) (total : Nat) :
    Nat → List (List SourceTreeEntry) → M (List NewTreeEntry)
  | _, [] => pure []
  | done, wdw :: rest => do
    let results ← mapMList copyOne wdw
    (match mkMsg with
     | some mk => logM (mk (done + wdw.length) total)
     | none => pure ())
    let more ← copyWindows copyOne mkMsg total (done + wdw.length) rest
    pure (results ++ more)

/-- The batch copy engine: window size `w` (5 client-side, 10 server-side),
`mkMsg` the progress formatter (`none` in the server's secondary-branch loop,
which emits no progress lines). -/
def copyBatches (w : Nat) (copyOne : SourceTreeEntry → M NewTreeEntry)
    (mkMsg : Option (Nat → Nat → String)) (l : List SourceTreeEntry) : M (List NewTreeEntry) :=
  copyWindows copyOne mkMsg l.length 0 (windows w l)

/-- Mode handling of the server copy: `blob.mode || "100644"` (JS falsy
fallback: absent or empty string). -/
def modeOrDefault : Option String → String
  | none => "100644"
  | some m => if m = "" then "100644" else m

/-- Copy of one blob on the server path: fetch from source, re-upload to
destination, keep the source-reported mode with a `100644` fallback. -/
def copyBlobServer (env : Env) (src dst : RepoId) (b : SourceTreeEntry) : M NewTreeEntry := do
  let bd ← getBlobM env src b.sha
  let newSha ← createBlobM dst bd.content bd.encoding
  pure { path := b.path, mode := modeOrDefault b.mode, type := "blob", sha := newSha }

/-- Copy of one blob on the client path: mode hardcoded to `100644`. -/
def copyBlobClient (env : Env) (src dst : RepoId) (b : SourceTreeEntry) : M NewTreeEntry := do
  let bd ← getBlobM env src b.sha
  let newSha ← createBlobM dst bd.content bd.encoding
  pure { path := b.path, mode := "100644", type := "blob", sha := newSha }

/-! Server orchestration (`mirrorRepo` of `src/unnamed/part_002`), phase by
phase in source order. -/

def serverValidateSource (env : Env) (sourceUrl : String) : M (RepoId × RepoData) := do
  logM "🔍 Validando repositório de origem..."
  match parseRepoUrl sourceUrl with
  | none => mthrow ("URL inválida: " ++ sourceUrl)
  | some (o, n) => do
    let r : RepoId := ⟨o, n⟩
    let d ← getRepoM env r
    logM ("✅ Origem: " ++ d.fullName ++ " (branch: " ++ d.defaultBranch ++ ", " ++
      (if d.isPrivate then "privado" else "público") ++ ")")
    pure (r, d)

def serverValidateDest (env : Env) (destUrl : String) : M (RepoId × RepoData) := do
  logM "🔍 Validando repositório de destino..."
  match parseRepoUrl destUrl with
  | none => mthrow ("URL inválida: " ++ destUrl)
  | some (o, n) => do
    let r : RepoId := ⟨o, n⟩
    let d ← getRepoM env r
    logM ("✅ Destino: " ++ d.fullName ++ " (branch: " ++ d.defaultBranch ++ ", " ++
      (if d.isPrivate then "privado" else "público") ++ ")")
    pure (r, d)

/-- The pagination loop of phase 3: fetch pages of 100 until a short or empty
page (a full final page triggers one extra fetch that returns empty, as in
the source `while` loop). -/
def collectPages (r : RepoId) : Nat → List (List BranchInfo) → M (List BranchInfo)
  | page, [] => do
    recordM (ApiCall.listBranches r page)
    pure []
  | page, pg :: rest => do
    recordM (ApiCall.listBranches r page)
    if pg.length < 100 then pure pg
    else do
      let more ← collectPages r (page + 1) rest
      pure (pg ++ more)

def serverListBranches (env : Env) (src : RepoId) : M (List BranchInfo) := do
  logM "📋 Obtendo branches da origem..."
  let bs ← collectPages src 1 (windows 100 env.branches)
  logM ("📋 " ++ toString bs.length ++ " branch(es) encontrado(s)")
  pure bs

def serverFetchTree (env : Env) (src : RepoId) (sBranch : String) : M (List SourceTreeEntry) := do
  logM "📂 Obtendo árvore de arquivos da origem..."
  let tree ← getTreeM env src sBranch
  let blobs := tree.filter (fun e => e.type == "blob")
  logM ("📂 " ++ toString blobs.length ++ " arquivo(s) encontrado(s)")
  pure blobs

def serverWipe (dst : RepoId) (dBranch : String) : M Unit := do
  logM "🗑️ Limpando repositório de destino..."
  let headSha ← getRefM dst dBranch
  let emptyTreeSha ← createTreeM dst []
  let emptyCommitSha ← createCommitM dst "🗑️ Limpar repositório para mirror" emptyTreeSha [headSha]
  updateRefM dst dBranch emptyCommitSha
  logM "✅ Destino limpo"

def serverCopyDefault (env : Env) (src dst : RepoId) (blobs : List SourceTreeEntry) :
    M (List NewTreeEntry) := do
  logM "📦 Copiando arquivos..."
  copyBatches 10 (copyBlobServer env src dst) (some serverProgressMsg) blobs

def serverCommitDefault (dst : RepoId) (dBranch fullName : String)
    (entries : List NewTreeEntry) : M String := do
  logM "🌳 Criando árvore no destino..."
  let headSha ← getRefM dst dBranch
  let newTreeSha ← createTreeM dst entries
  let newCommitSha ← createCommitM dst
    ("📦 Mirror de " ++ fullName ++ "\n\nCopiado via GitHub Repo Mirror") newTreeSha [headSha]
  updateRefM dst dBranch newCommitSha
  pure newCommitSha

/-- Replication of one secondary branch (the body of the per-branch `try`).
The inner window loop emits no progress lines; ref creation falls back to a
force-update when the ref already exists. -/
def replicateOne (env : Env) (src dst : RepoId) (baseCommit : String) (b : BranchInfo) :
    M Unit := do
  let bt ← getTreeM env src b.commitSha
  let bblobs := bt.filter (fun e => e.type == "blob")
  let bentries ← copyBatches 10 (copyBlobServer env src dst) none bblobs
  let bTreeSha ← createTreeM dst bentries
  let bCommitSha ← createCommitM dst ("📦 Mirror branch: " ++ b.name) bTreeSha [baseCommit]
  mcatch (createRefM dst b.name bCommitSha) (fun _ => updateRefM dst b.name bCommitSha)
  logM ("🔀 Branch \x27" ++ b.name ++ "\x27 copiado")

/-- The secondary-branch loop: skip the default branch, catch per-branch
failures, log them as a warning naming the branch, continue. -/
def replicateBranches (env : Env) (src dst : RepoId) (sBranch baseCommit : String) :
    List BranchInfo → M Unit
  | [] => pure ()
  | b :: rest => do
    if b.name == sBranch then
      replicateBranches env src dst sBranch baseCommit rest
    else do
      mcatch (replicateOne env src dst baseCommit b)
        (fun e => logM ("⚠️ Erro ao copiar branch \x27" ++ b.name ++ "\x27: " ++ e))
      replicateBranches env src dst sBranch baseCommit rest

def serverReplicate (env : Env) (src dst : RepoId) (sBranch baseCommit : String)
    (branches : List BranchInfo) : M Unit := do
  if branches.length > 1 then do
    logM "🔀 Copiando branches adicionais..."
    replicateBranches env src dst sBranch baseCommit branches
  else pure ()

/-- The server orchestration, composed in source order: validate both
repositories, enumerate source branches, fetch the source default tree, wipe
the destination, copy and commit the default branch, replicate secondary
branches, then log the summary. -/
def mirrorRepoServer (env : Env) (sourceUrl destUrl : String) : M Unit := do
  let sv ← serverValidateSource env sourceUrl
  let dv ← serverValidateDest env destUrl
  let branches ← serverListBranches env sv.1
  let blobs ← serverFetchTree env sv.1 sv.2.defaultBranch
  serverWipe dv.1 dv.2.defaultBranch
  let entries ← serverCopyDefault env sv.1 dv.1 blobs
  let newCommitSha ← serverCommitDefault dv.1 dv.2.defaultBranch sv.2.fullName entries
  serverReplicate env sv.1 dv.1 sv.2.defaultBranch newCommitSha branches
  logM "✅ Mirror concluído com sucesso!"
  logM ("📊 Resumo: " ++ toString blobs.length ++ " arquivos, " ++
    toString branches.length ++ " branch(es) copiado(s)")

def initSt (env : Env) : MSt := { logs := [], trace := [], fresh := 0, refs := env.initRefs }

def runServer (env : Env) (sourceUrl destUrl : String) : Except String Unit × MSt :=
  mirrorRepoServer env sourceUrl destUrl (initSt env)

/-- The `serve` handler's response body: on success `success:true` with the
log list, on a thrown error `success:false` with only the message. -/
inductive ServeResult
  | ok (logs : List String)
  | err (msg : String)
  deriving DecidableEq, Repr

def serveModel (env : Env) (sourceUrl destUrl : String) : ServeResult :=
  match runServer env sourceUrl destUrl with
  | (Except.ok _, st) => ServeResult.ok st.logs
  | (Except.error e, _) => ServeResult.err e

/-! The caller pipeline of `src/unnamed/part_000` plus the page's
`handleClone` catch handler. -/

def parseIcon (msg : String) : LogType :=
  if msg.startsWith "✅" then LogType.success
  else if msg.startsWith "⚠️" then LogType.warn
  else if msg.startsWith "❌" then LogType.error
  else LogType.info

def startEntry : String × LogType := ("Iniciando mirror via servidor...", LogType.info)

/-- The client `mirrorRepo` of `src/unnamed/part_000`: emit the start line,
then on success replay each server log with the severity parsed from its
leading characters; on failure rethrow the message (second component). -/
def mirrorRepoClientSide (resp : ServeResult) : List (String × LogType) × Option String :=
  match resp with
  | ServeResult.ok logs => (startEntry :: logs.map (fun m => (m, parseIcon m)), none)
  | ServeResult.err m => ([startEntry], some m)

/-- The page's `handleClone`: run the client mirror and append an
error-severity entry when it throws. -/
def handleClone (resp : ServeResult) : List (String × LogType) :=
  match mirrorRepoClientSide resp with
  | (entries, none) => entries
  | (entries, some m) => entries ++ [(m, LogType.error)]

/-! Client orchestration (`cloneRepo` of `src/src/lib/github.ts`). -/

def validateRepoM (env : Env) (url : String) : M (RepoId × RepoData) := do
  match parseRepoUrl url with
  | none => mthrow ("URL inválida: " ++ url)
  | some (o, n) => do
    let r : RepoId := ⟨o, n⟩
    let d ← getRepoM env r
    pure (r, d)

def deleteAllContents (dst : RepoId) (branch : String) : M Unit := do
  logM "Obtendo referência do branch de destino..."
  let headSha ← getRefM dst branch
  let emptyTreeSha ← createTreeM dst []
  let emptyCommitSha ← createCommitM dst "🗑️ Limpar repositório para mirror" emptyTreeSha [headSha]
  updateRefM dst branch emptyCommitSha
  logM "Conteúdo do destino removido ✓"

def cloneRepoClient (env : Env) (sourceUrl destUrl : String) : M Unit := do
  logM "Validando repositório de origem..."
  let sv ← validateRepoM env sourceUrl
  if sv.2.isPrivate then mthrow "O repositório de origem deve ser público." else pure ()
  logM ("Origem: " ++ sv.2.fullName ++ " (branch: " ++ sv.2.defaultBranch ++ ") ✓")
  logM "Validando repositório de destino..."
  let dv ← validateRepoM env destUrl
  if dv.2.isPrivate then mthrow "O repositório de destino deve ser público." else pure ()
  logM ("Destino: " ++ dv.2.fullName ++ " (branch: " ++ dv.2.defaultBranch ++ ") ✓")
  logM "Limpando repositório de destino..."
  deleteAllContents dv.1 dv.2.defaultBranch
  logM "Obtendo árvore de arquivos da origem..."
  let tree ← getTreeM env sv.1 sv.2.defaultBranch
  let blobs := tree.filter (fun e => e.type == "blob")
  logM (toString blobs.length ++ " arquivo(s) encontrado(s)")
  logM "Copiando arquivos para o destino..."
  let entries ← copyBatches 5 (copyBlobClient env sv.1 dv.1) (some clientProgressMsg) blobs
  logM "Criando nova árvore no destino..."
  let headSha ← getRefM dv.1 dv.2.defaultBranch
  let newTreeSha ← createTreeM dv.1 entries
  logM "Criando commit no destino..."
  let newCommitSha ← createCommitM dv.1 ("📦 Mirror de " ++ sv.2.fullName) newTreeSha [headSha]
  updateRefM dv.1 dv.2.defaultBranch newCommitSha
  logM "✅ Mirror concluído com sucesso!"
  logM ("Nota: Este método copia apenas os arquivos do branch padrão. Para mirror completo " ++
    "(todos os branches, commits e histórico), use o script Python disponível na aba " ++
    "\"Script Python\".")

def runClient (env : Env) (sourceUrl destUrl : String) : Except String Unit × MSt :=
  cloneRepoClient env sourceUrl destUrl (initSt env)

/-! Observations on traces used by the claims. -/

/-- The repository an API call addresses. -/
def callRepo : ApiCall → RepoId
  | ApiCall.getRepo r => r
  | ApiCall.listBranches r _ => r
  | ApiCall.getTree r _ => r
  | ApiCall.getBlob r _ => r
  | ApiCall.createBlob r _ _ _ => r
  | ApiCall.createTree r _ _ => r
  | ApiCall.createCommit r _ _ _ _ => r
  | ApiCall.getRef r _ => r
  | ApiCall.updateRef r _ _ => r
  | ApiCall.createRef r _ _ => r

/-- Whether a call mutates remote state. -/
def isWriteB : ApiCall → Bool
  | ApiCall.createBlob _ _ _ _ => true
  | ApiCall.createTree _ _ _ => true
  | ApiCall.createCommit _ _ _ _ _ => true
  | ApiCall.updateRef _ _ _ => true
  | ApiCall.createRef _ _ _ => true
  | _ => false

/-- Whether a call writes to the given repository. -/
def writesToB (d : RepoId) (c : ApiCall) : Bool :=
  isWriteB c && decide (callRepo c = d)

/-- Whether a call is the recursive tree listing of the given repo and ref. -/
def isGetTreeAtB (r : RepoId) (ref : String) (c : ApiCall) : Bool :=
  decide (c = ApiCall.getTree r ref)

/-- Whether a call force-updates some ref of the given repository. -/
def isUpdateRefToB (d : RepoId) (c : ApiCall) : Bool :=
  match c with
  | ApiCall.updateRef r _ _ => decide (r = d)
  | _ => false

/-- The sha a ref-moving call points the ref at, if any. -/
def refTarget : ApiCall → Option String
  | ApiCall.updateRef _ _ sha => some sha
  | ApiCall.createRef _ _ sha => some sha
  | _ => none

/-- The sha returned by a commit-creation call, if any. -/
def commitShaOf : ApiCall → Option String
  | ApiCall.createCommit _ _ _ _ sha => some sha
  | _ => none

/-- Ref safety of a trace: scanning left to right while accumulating the ids
of created commits, every ref-moving call targets an already-created commit
(or one of the initially `created` ids). -/
def refOk : List String → List ApiCall → Bool
  | _, [] => true
  | created, c :: rest =>
    match refTarget c with
    | some sha => created.contains sha && refOk created rest
    | none =>
      match commitShaOf c with
      | some sha => refOk (sha :: created) rest
      | none => refOk created rest

/-- Commit ids accumulated over a trace. -/
def accCommits : List String → List ApiCall → List String
  | created, [] => created
  | created, c :: rest =>
    match commitShaOf c with
    | some sha => accCommits (sha :: created) rest
    | none => accCommits created rest

/-- Precedence encoding: every prefix of the trace containing a `P`-call
also contains a `Q`-call (so the first `P`-call comes after some `Q`-call). -/
def firstRequires (P Q : ApiCall → Bool) (t : List ApiCall) : Prop :=
  ∀ n : Nat, (∃ c ∈ t.take n, P c = true) → ∃ c ∈ t.take n, Q c = true

/-- Whether a call is a recursive tree listing (of any repository). -/
def isGetTreeB : ApiCall → Bool
  | ApiCall.getTree _ _ => true
  | _ => false

/-- Whether a call uploads a blob (of any repository). -/
def isCreateBlobB : ApiCall → Bool
  | ApiCall.createBlob _ _ _ _ => true
  | _ => false

/-- Whether a call force-updates a ref (of any repository). -/
def isUpdateRefAnyB : ApiCall → Bool
  | ApiCall.updateRef _ _ _ => true
  | _ => false

/-- All data a secondary branch needs for its replication to succeed: its
tree is fetchable and every blob of that tree is fetchable. -/
def branchReady (env : Env) (src : RepoId) (b : BranchInfo) : Prop :=
  ∃ tr, lookupA env.trees (src, b.commitSha) = some tr ∧
    ∀ e ∈ tr.filter (fun x => x.type == "blob"), (lookupA env.blobs (src, e.sha)).isSome = true

/-! Run equations for the monad and its primitives. -/

theorem bind_run {α β : Type} (m : M α) (f : α → M β) (s : MSt) :
    (m >>= f) s = (match m s with
      | (Except.ok a, s1) => f a s1
      | (Except.error e, s1) => (Except.error e, s1)) := rfl

theorem mcatch_run {α : Type} (m : M α) (h : String → M α) (s : MSt) :
    mcatch m h s = (match m s with
      | (Except.ok a, s1) => (Except.ok a, s1)
      | (Except.error e, s1) => h e s1) := rfl

theorem pure_run {α : Type} (a : α) (s : MSt) : (pure a : M α) s = (Except.ok a, s) := rfl

/-! Helper lemmas about `refOk`, `accCommits` and `firstRequires`. -/

theorem refOk_append_right (C : List String) (t1 t2 : List ApiCall)
    (h1 : refOk C t1 = true) (h2 : ∀ C2, refOk C2 t2 = true) :
    refOk C (t1 ++ t2) = true := by
  induction t1 generalizing C with
  | nil => simpa using h2 C
  | cons c t1 ih =>
    simp only [List.cons_append, refOk] at h1 ⊢
    cases hr : refTarget c with
    | some sha =>
      rw [hr] at h1
      simp only [Bool.and_eq_true] at h1
      simp only [Bool.and_eq_true]
      exact ⟨h1.1, ih C h1.2⟩
    | none =>
      rw [hr] at h1
      cases hc : commitShaOf c with
      | some sha => rw [hc] at h1; exact ih _ h1
      | none => rw [hc] at h1; exact ih _ h1

theorem refOk_of_no_refTarget (t : List ApiCall) (h : ∀ c ∈ t, refTarget c = none) :
    ∀ C, refOk C t = true := by
  induction t with
  | nil => intro C; rfl
  | cons c t ih =>
    intro C
    have hc : refTarget c = none := h c (by simp)
    have ht : ∀ c2 ∈ t, refTarget c2 = none := fun c2 hm => h c2 (by simp [hm])
    simp only [refOk, hc]
    cases hcs : commitShaOf c with
    | some sha => exact ih ht _
    | none => exact ih ht _

theorem firstRequires_of_none (P Q : ApiCall → Bool) (t : List ApiCall)
    (h : ∀ c ∈ t, P c = false) : firstRequires P Q t := by
  intro n ⟨c, hc, hp⟩
  have := h c (List.mem_of_mem_take hc)
  simp [this] at hp

theorem firstRequires_of_split (P Q : ApiCall → Bool) (t1 t2 : List ApiCall)
    (h1 : ∀ c ∈ t1, P c = false) (h2 : ∃ c ∈ t1, Q c = true) :
    firstRequires P Q (t1 ++ t2) := by
  intro n ⟨c, hc, hp⟩
  rcases Nat.le_total n t1.length with hle | hge
  · exfalso
    have hsub : (t1 ++ t2).take n = t1.take n := by
      rw [List.take_append_eq_append_take]
      have : n - t1.length = 0 := Nat.sub_eq_zero_of_le hle
      simp [this]
    rw [hsub] at hc
    have := h1 c (List.mem_of_mem_take hc)
    simp [this] at hp
  · obtain ⟨q, hq, hQ⟩ := h2
    refine ⟨q, ?_, hQ⟩
    have hpre : t1 <+: (t1 ++ t2).take n := by
      rw [List.take_append_eq_append_take]
      have : t1.take n = t1 := List.take_of_length_le hge
      rw [this]
      exact ⟨_, rfl⟩
    exact hpre.subset hq

/-! Run equations for the loop-free phases: each phase's action on an
arbitrary state, by cases on the remote data it reads. -/

theorem serverValidateSource_run (env : Env) (su : String) (s : MSt) :
    serverValidateSource env su s =
      match parseRepoUrl su with
      | none => (Except.error ("URL inválida: " ++ su),
          { s with logs := s.logs ++ ["🔍 Validando repositório de origem..."] })
      | some (o, n) =>
        match lookupA env.repos ⟨o, n⟩ with
        | none => (Except.error ("GitHub API 404: repo " ++ o ++ "/" ++ n),
            { s with logs := s.logs ++ ["🔍 Validando repositório de origem..."],
                     trace := s.trace ++ [ApiCall.getRepo ⟨o, n⟩] })
        | some d => (Except.ok (⟨o, n⟩, d),
            { s with
              logs := s.logs ++ ["🔍 Validando repositório de origem...",
                "✅ Origem: " ++ d.fullName ++ " (branch: " ++ d.defaultBranch ++ ", " ++
                  (if d.isPrivate then "privado" else "público") ++ ")"],
              trace := s.trace ++ [ApiCall.getRepo ⟨o, n⟩] }) := by
  cases hp : parseRepoUrl su with
  | none => simp [serverValidateSource, bind_run, logM, getRepoM, recordM, mthrow, hp]
  | some pr =>
    obtain ⟨o, n⟩ := pr
    cases hl : lookupA env.repos ⟨o, n⟩ with
    | none =>
      simp [serverValidateSource, bind_run, logM, getRepoM, recordM, mthrow, readState,
        mret, pure_run, hp, hl]
    | some d =>
      simp [serverValidateSource, bind_run, logM, getRepoM, recordM, mthrow, readState,
        mret, pure_run, hp, hl]

theorem serverValidateDest_run (env : Env) (du : String) (s : MSt) :
    serverValidateDest env du s =
      match parseRepoUrl du with
      | none => (Except.error ("URL inválida: " ++ du),
          { s with logs := s.logs ++ ["🔍 Validando repositório de destino..."] })
      | some (o, n) =>
        match lookupA env.repos ⟨o, n⟩ with
        | none => (Except.error ("GitHub API 404: repo " ++ o ++ "/" ++ n),
            { s with logs := s.logs ++ ["🔍 Validando repositório de destino..."],
                     trace := s.trace ++ [ApiCall.getRepo ⟨o, n⟩] })
        | some d => (Except.ok (⟨o, n⟩, d),
            { s with
              logs := s.logs ++ ["🔍 Validando repositório de destino...",
                "✅ Destino: " ++ d.fullName ++ " (branch: " ++ d.defaultBranch ++ ", " ++
                  (if d.isPrivate then "privado" else "público") ++ ")"],
              trace := s.trace ++ [ApiCall.getRepo ⟨o, n⟩] }) := by
  cases hp : parseRepoUrl du with
  | none => simp [serverValidateDest, bind_run, logM, getRepoM, recordM, mthrow, hp]
  | some pr =>
    obtain ⟨o, n⟩ := pr
    cases hl : lookupA env.repos ⟨o, n⟩ with
    | none =>
      simp [serverValidateDest, bind_run, logM, getRepoM, recordM, mthrow, readState,
        mret, pure_run, hp, hl]
    | some d =>
      simp [serverValidateDest, bind_run, logM, getRepoM, recordM, mthrow, readState,
        mret, pure_run, hp, hl]

theorem serverFetchTree_run (env : Env) (src : RepoId) (sBranch : String) (s : MSt) :
    serverFetchTree env src sBranch s =
      match lookupA env.trees (src, sBranch) with
      | none => (Except.error ("GitHub API 404: tree " ++ sBranch),
          { s with logs := s.logs ++ ["📂 Obtendo árvore de arquivos da origem..."],
                   trace := s.trace ++ [ApiCall.getTree src sBranch] })
      | some tr => (Except.ok (tr.filter (fun e => e.type == "blob")),
          { s with
            logs := s.logs ++ ["📂 Obtendo árvore de arquivos da origem...",
              "📂 " ++ toString (tr.filter (fun e => e.type == "blob")).length ++
                " arquivo(s) encontrado(s)"],
            trace := s.trace ++ [ApiCall.getTree src sBranch] }) := by
  cases hl : lookupA env.trees (src, sBranch) with
  | none => simp [serverFetchTree, bind_run, logM, getTreeM, recordM, mthrow, pure_run, hl]
  | some tr => simp [serverFetchTree, bind_run, logM, getTreeM, recordM, mthrow, pure_run, hl]

theorem serverWipe_run (dst : RepoId) (dBranch : String) (s : MSt) :
    serverWipe dst dBranch s =
      match lookupA s.refs (dst, dBranch) with
      | none => (Except.error ("GitHub API 404: ref " ++ dBranch),
          { s with logs := s.logs ++ ["🗑️ Limpando repositório de destino..."],
                   trace := s.trace ++ [ApiCall.getRef dst dBranch] })
      | some head => (Except.ok (),
          { logs := s.logs ++ ["🗑️ Limpando repositório de destino...", "✅ Destino limpo"],
            trace := s.trace ++ [ApiCall.getRef dst dBranch,
              ApiCall.createTree dst [] ("tree" ++ toString s.fresh),
              ApiCall.createCommit dst "🗑️ Limpar repositório para mirror"
                ("tree" ++ toString s.fresh) [head] ("commit" ++ toString (s.fresh + 1)),
              ApiCall.updateRef dst dBranch ("commit" ++ toString (s.fresh + 1))],
            fresh := s.fresh + 2,
            refs := ((dst, dBranch), "commit" ++ toString (s.fresh + 1)) :: s.refs }) := by
  cases hl : lookupA s.refs (dst, dBranch) with
  | none =>
    simp [serverWipe, bind_run, logM, getRefM, recordM, mthrow, readState, pure_run,
      freshShaM, createTreeM, createCommitM, updateRefM, modifySt, hl]
  | some head =>
    simp [serverWipe, bind_run, logM, getRefM, recordM, mthrow, readState, pure_run,
      freshShaM, createTreeM, createCommitM, updateRefM, modifySt, hl]

theorem serverCommitDefault_run (dst : RepoId) (dBranch fullName : String)
    (entries : List NewTreeEntry) (s : MSt) :
    serverCommitDefault dst dBranch fullName entries s =
      match lookupA s.refs (dst, dBranch) with
      | none => (Except.error ("GitHub API 404: ref " ++ dBranch),
          { s with logs := s.logs ++ ["🌳 Criando árvore no destino..."],
                   trace := s.trace ++ [ApiCall.getRef dst dBranch] })
      | some head => (Except.ok ("commit" ++ toString (s.fresh + 1)),
          { logs := s.logs ++ ["🌳 Criando árvore no destino..."],
            trace := s.trace ++ [ApiCall.getRef dst dBranch,
              ApiCall.createTree dst entries ("tree" ++ toString s.fresh),
              ApiCall.createCommit dst
                ("📦 Mirror de " ++ fullName ++ "\n\nCopiado via GitHub Repo Mirror")
                ("tree" ++ toString s.fresh) [head] ("commit" ++ toString (s.fresh + 1)),
              ApiCall.updateRef dst dBranch ("commit" ++ toString (s.fresh + 1))],
            fresh := s.fresh + 2,
            refs := ((dst, dBranch), "commit" ++ toString (s.fresh + 1)) :: s.refs }) := by
  cases hl : lookupA s.refs (dst, dBranch) with
  | none =>
    simp [serverCommitDefault, bind_run, logM, getRefM, recordM, mthrow, readState, pure_run,
      freshShaM, createTreeM, createCommitM, updateRefM, modifySt, hl]
  | some head =>
    simp [serverCommitDefault, bind_run, logM, getRefM, recordM, mthrow, readState, pure_run,
      freshShaM, createTreeM, createCommitM, updateRefM, modifySt, hl]

theorem validateRepoM_run (env : Env) (url : String) (s : MSt) :
    validateRepoM env url s =
      match parseRepoUrl url with
      | none => (Except.error ("URL inválida: " ++ url), s)
      | some (o, n) =>
        match lookupA env.repos ⟨o, n⟩ with
        | none => (Except.error ("GitHub API 404: repo " ++ o ++ "/" ++ n),
            { s with trace := s.trace ++ [ApiCall.getRepo ⟨o, n⟩] })
        | some d => (Except.ok (⟨o, n⟩, d),
            { s with trace := s.trace ++ [ApiCall.getRepo ⟨o, n⟩] }) := by
  cases hp : parseRepoUrl url with
  | none => simp [validateRepoM, bind_run, getRepoM, recordM, mthrow, pure_run, hp]
  | some pr =>
    obtain ⟨o, n⟩ := pr
    cases hl : lookupA env.repos ⟨o, n⟩ with
    | none => simp [validateRepoM, bind_run, getRepoM, recordM, mthrow, pure_run, hp, hl]
    | some d => simp [validateRepoM, bind_run, getRepoM, recordM, mthrow, pure_run, hp, hl]

theorem deleteAllContents_run (dst : RepoId) (branch : String) (s : MSt) :
    deleteAllContents dst branch s =
      match lookupA s.refs (dst, branch) with
      | none => (Except.error ("GitHub API 404: ref " ++ branch),
          { s with logs := s.logs ++ ["Obtendo referência do branch de destino..."],
                   trace := s.trace ++ [ApiCall.getRef dst branch] })
      | some head => (Except.ok (),
          { logs := s.logs ++ ["Obtendo referência do branch de destino...",
              "Conteúdo do destino removido ✓"],
            trace := s.trace ++ [ApiCall.getRef dst branch,
              ApiCall.createTree dst [] ("tree" ++ toString s.fresh),
              ApiCall.createCommit dst "🗑️ Limpar repositório para mirror"
                ("tree" ++ toString s.fresh) [head] ("commit" ++ toString (s.fresh + 1)),
              ApiCall.updateRef dst branch ("commit" ++ toString (s.fresh + 1))],
            fresh := s.fresh + 2,
            refs := ((dst, branch), "commit" ++ toString (s.fresh + 1)) :: s.refs }) := by
  cases hl : lookupA s.refs (dst, branch) with
  | none =>
    simp [deleteAllContents, bind_run, logM, getRefM, recordM, mthrow, readState, pure_run,
      freshShaM, createTreeM, createCommitM, updateRefM, modifySt, hl]
  | some head =>
    simp [deleteAllContents, bind_run, logM, getRefM, recordM, mthrow, readState, pure_run,
      freshShaM, createTreeM, createCommitM, updateRefM, modifySt, hl]

/-! Spec lemmas for the loops: pagination, windowing, the batch copy engine
and secondary-branch replication. -/

theorem collectPages_spec (r : RepoId) :
    ∀ (pages : List (List BranchInfo)) (page : Nat) (s : MSt),
    ∃ bs s1, collectPages r page pages s = (Except.ok bs, s1) ∧
      s1.logs = s.logs ∧ s1.fresh = s.fresh ∧ s1.refs = s.refs ∧
      ∃ t, s1.trace = s.trace ++ t ∧ ∀ c ∈ t, ∃ r2 p2, c = ApiCall.listBranches r2 p2 := by
  intro pages
  induction pages with
  | nil =>
    intro page s
    refine ⟨[], { s with trace := s.trace ++ [ApiCall.listBranches r page] },
      ?_, rfl, rfl, rfl, ⟨[ApiCall.listBranches r page], rfl, ?_⟩⟩
    · simp [collectPages, bind_run, recordM, pure_run]
    · simp
  | cons pg rest ih =>
    intro page s
    by_cases hlen : pg.length < 100
    · refine ⟨pg, { s with trace := s.trace ++ [ApiCall.listBranches r page] },
        ?_, rfl, rfl, rfl, ⟨[ApiCall.listBranches r page], rfl, ?_⟩⟩
      · simp [collectPages, bind_run, recordM, pure_run, hlen]
      · simp
    · obtain ⟨bs, s1, heq, hlg, hfr, hrf, t, htr, hsh⟩ :=
        ih (page + 1) { s with trace := s.trace ++ [ApiCall.listBranches r page] }
      refine ⟨pg ++ bs, s1, ?_, by simpa using hlg, by simpa using hfr, by simpa using hrf,
        ⟨ApiCall.listBranches r page :: t, ?_, ?_⟩⟩
      · simp [collectPages, bind_run, recordM, pure_run, hlen, heq]
      · simp [htr]
      · intro c hc
        rcases List.mem_cons.mp hc with hc | hc
        · exact ⟨r, page, hc⟩
        · exact hsh c hc

theorem serverListBranches_spec (env : Env) (src : RepoId) (s : MSt) :
    ∃ bs s1, serverListBranches env src s = (Except.ok bs, s1) ∧
      s1.fresh = s.fresh ∧ s1.refs = s.refs ∧
      (∃ lg, s1.logs = s.logs ++ lg) ∧
      ∃ t, s1.trace = s.trace ++ t ∧ ∀ c ∈ t, ∃ r2 p2, c = ApiCall.listBranches r2 p2 := by
  obtain ⟨bs, s1, heq, hlg, hfr, hrf, t, htr, hsh⟩ :=
    collectPages_spec src (windows 100 env.branches) 1
      { s with logs := s.logs ++ ["📋 Obtendo branches da origem..."] }
  refine ⟨bs, { s1 with logs := s1.logs ++
      ["📋 " ++ toString bs.length ++ " branch(es) encontrado(s)"] }, ?_, ?_, ?_, ?_, ?_⟩
  · simp [serverListBranches, bind_run, logM, heq, pure_run]
  · simpa using hfr
  · simpa using hrf
  · refine ⟨["📋 Obtendo branches da origem...",
      "📋 " ++ toString bs.length ++ " branch(es) encontrado(s)"], ?_⟩
    simp [hlg]
  · refine ⟨t, ?_, hsh⟩
    simp [htr]

/-- Cumulative progress lines a successful window loop emits. -/
def progressList (mk : Nat → Nat → String) (total : Nat) :
    Nat → List (List SourceTreeEntry) → List String
  | _, [] => []
  | done, w :: ws => mk (done + w.length) total :: progressList mk total (done + w.length) ws

theorem progressList_length (mk : Nat → Nat → String) (total : Nat) :
    ∀ done ws, (progressList mk total done ws).length = ws.length := by
  intro done ws
  induction ws generalizing done with
  | nil => rfl
  | cons w ws ih => simp [progressList, ih]

theorem getLast?_cons_of_ne {α : Type} (a : α) (l : List α) (h : l ≠ []) :
    (a :: l).getLast? = l.getLast? := by
  cases l with
  | nil => exact absurd rfl h
  | cons b m => rw [List.getLast?_cons_cons]

theorem progressList_getLast (mk : Nat → Nat → String) (total : Nat) :
    ∀ ws done, ws ≠ [] →
      (progressList mk total done ws).getLast? =
        some (mk (done + (ws.map List.length).sum) total) := by
  intro ws
  induction ws with
  | nil => intro done h; exact absurd rfl h
  | cons w ws ih =>
    intro done _
    cases hw : ws with
    | nil => simp [progressList, hw]
    | cons w2 ws2 =>
      subst hw
      have hne : progressList mk total (done + w.length) (w2 :: ws2) ≠ [] := by
        intro hcon
        have hl := progressList_length mk total (done + w.length) (w2 :: ws2)
        rw [hcon] at hl
        simp at hl
      rw [progressList, getLast?_cons_of_ne _ _ hne, ih (done + w.length) (by simp)]
      simp [Nat.add_assoc]

theorem windowsAux_flatten {α : Type} (w : Nat) :
    ∀ (l cur : List α), (windowsAux w cur l).flatten = cur ++ l := by
  intro l
  induction l with
  | nil =>
    intro cur
    by_cases h : cur.isEmpty
    · simp [windowsAux, h, List.isEmpty_iff.mp h]
    · simp [windowsAux, h]
  | cons a l ih =>
    intro cur
    by_cases h : cur.length + 1 < w
    · rw [windowsAux, if_pos h, ih (cur ++ [a])]
      simp
    · rw [windowsAux, if_neg h]
      simp [ih []]

theorem windows_flatten {α : Type} (w : Nat) (l : List α) : (windows w l).flatten = l := by
  simpa using windowsAux_flatten w l []

theorem windowsAux_length {α : Type} (w : Nat) (hw : 0 < w) :
    ∀ (l cur : List α), cur.length < w →
      (windowsAux w cur l).length =
        if cur.isEmpty ∧ l.isEmpty then 0 else (cur.length + l.length + w - 1) / w := by
  intro l
  induction l with
  | nil =>
    intro cur hcur
    by_cases h : cur.isEmpty
    · simp [windowsAux, h]
    · have hne : cur ≠ [] := fun hn => by simp [hn] at h
      have h1 : 0 < cur.length := List.length_pos.mpr hne
      rw [windowsAux, if_neg h, if_neg (by simp [h])]
      have hnum : cur.length + ([] : List α).length + w - 1 = (cur.length - 1) + w := by
        simp only [List.length_nil]
        omega
      rw [hnum, Nat.add_div_right _ hw, Nat.div_eq_of_lt (by omega)]
      rfl
  | cons a l ih =>
    intro cur hcur
    by_cases h : cur.length + 1 < w
    · rw [windowsAux, if_pos h, ih (cur ++ [a]) (by simpa using h),
        if_neg (by simp), if_neg (by simp)]
      congr 1
      simp only [List.length_append, List.length_cons, List.length_nil]
      omega
    · have hwl : cur.length + 1 = w := by omega
      rw [windowsAux, if_neg h]
      have lhs1 : ((cur ++ [a]) :: windowsAux w [] l).length
          = (windowsAux w [] l).length + 1 := by simp
      rw [lhs1, ih [] (by simpa using hw)]
      rw [if_neg (show ¬(cur.isEmpty = true ∧ (a :: l).isEmpty = true) by simp)]
      by_cases hl : l.isEmpty
      · have hl0 : l = [] := List.isEmpty_iff.mp hl
        subst hl0
        rw [if_pos (by simp)]
        have hnum : cur.length + (a :: ([] : List α)).length + w - 1 = (w - 1) + w := by
          simp only [List.length_cons, List.length_nil]
          omega
        rw [hnum, Nat.add_div_right _ hw, Nat.div_eq_of_lt (by omega)]
      · rw [if_neg (by simp [hl])]
        have hnum : cur.length + (a :: l).length + w - 1
            = (([] : List α).length + l.length + w - 1) + w := by
          simp only [List.length_cons, List.length_nil]
          omega
        rw [hnum, Nat.add_div_right _ hw]

theorem windows_length {α : Type} (w : Nat) (hw : 0 < w) (l : List α) :
    (windows w l).length = (l.length + w - 1) / w := by
  rw [windows, windowsAux_length w hw l [] (by simpa using hw)]
  by_cases h : l.isEmpty
  · have hl0 : l = [] := List.isEmpty_iff.mp h
    subst hl0
    rw [if_pos (by simp)]
    have h0 : ((List.nil : List α).length + w - 1) / w = 0 := by
      apply Nat.div_eq_of_lt
      simp only [List.length_nil]
      omega
    exact h0.symm
  · rw [if_neg (by simp [h])]
    simp

/-- Calls the per-blob copy step may issue: a source blob fetch or a
destination blob upload. -/
def isCopyCallB : ApiCall → Bool
  | ApiCall.getBlob _ _ => true
  | ApiCall.createBlob _ _ _ _ => true
  | _ => false

theorem copyCall_facts (c : ApiCall) (h : isCopyCallB c = true) :
    refTarget c = none ∧ commitShaOf c = none ∧ isGetTreeB c = false ∧
      isUpdateRefAnyB c = false := by
  cases c <;> simp_all [isCopyCallB, refTarget, commitShaOf, isGetTreeB, isUpdateRefAnyB]

/-- Pointwise behaviour of the server per-blob copy step. -/
theorem copyBlobServer_point (env : Env) (src dst : RepoId) :
    ∀ (a : SourceTreeEntry) (s : MSt),
    ∃ res s1, copyBlobServer env src dst a s = (res, s1) ∧
      s1.logs = s.logs ∧ s1.refs = s.refs ∧
      (∃ t, s1.trace = s.trace ++ t ∧ ∀ c ∈ t, isCopyCallB c = true) ∧
      (∀ b, res = Except.ok b → b.mode = modeOrDefault a.mode ∧ b.path = a.path) ∧
      ((lookupA env.blobs (src, a.sha)).isSome = true → ∃ b, res = Except.ok b) := by
  intro a s
  cases hl : lookupA env.blobs (src, a.sha) with
  | none =>
    refine ⟨Except.error ("GitHub API 404: blob " ++ a.sha),
      { s with trace := s.trace ++ [ApiCall.getBlob src a.sha] }, ?_, rfl, rfl,
      ⟨[ApiCall.getBlob src a.sha], rfl, by simp [isCopyCallB]⟩, ?_, ?_⟩
    · simp [copyBlobServer, bind_run, getBlobM, recordM, mthrow, pure_run, hl]
    · intro b h; simp at h
    · intro h; simp at h
  | some bd =>
    refine ⟨Except.ok ⟨a.path, modeOrDefault a.mode, "blob", "blob" ++ toString s.fresh⟩,
      { s with
        trace := s.trace ++ [ApiCall.getBlob src a.sha,
          ApiCall.createBlob dst bd.content bd.encoding ("blob" ++ toString s.fresh)],
        fresh := s.fresh + 1 }, ?_, rfl, rfl,
      ⟨[ApiCall.getBlob src a.sha,
        ApiCall.createBlob dst bd.content bd.encoding ("blob" ++ toString s.fresh)],
        rfl, by simp [isCopyCallB]⟩, ?_, ?_⟩
    · simp [copyBlobServer, bind_run, getBlobM, recordM, mthrow, pure_run, createBlobM,
        freshShaM, hl]
    · intro b h
      injection h with h
      subst h
      exact ⟨rfl, rfl⟩
    · intro _
      exact ⟨_, rfl⟩

/-- Pointwise behaviour of the client per-blob copy step. -/
theorem copyBlobClient_point (env : Env) (src dst : RepoId) :
    ∀ (a : SourceTreeEntry) (s : MSt),
    ∃ res s1, copyBlobClient env src dst a s = (res, s1) ∧
      s1.logs = s.logs ∧ s1.refs = s.refs ∧
      (∃ t, s1.trace = s.trace ++ t ∧ ∀ c ∈ t, isCopyCallB c = true) ∧
      (∀ b, res = Except.ok b → b.mode = "100644" ∧ b.path = a.path) ∧
      ((lookupA env.blobs (src, a.sha)).isSome = true → ∃ b, res = Except.ok b) := by
  intro a s
  cases hl : lookupA env.blobs (src, a.sha) with
  | none =>
    refine ⟨Except.error ("GitHub API 404: blob " ++ a.sha),
      { s with trace := s.trace ++ [ApiCall.getBlob src a.sha] }, ?_, rfl, rfl,
      ⟨[ApiCall.getBlob src a.sha], rfl, by simp [isCopyCallB]⟩, ?_, ?_⟩
    · simp [copyBlobClient, bind_run, getBlobM, recordM, mthrow, pure_run, hl]
    · intro b h; simp at h
    · intro h; simp at h
  | some bd =>
    refine ⟨Except.ok ⟨a.path, "100644", "blob", "blob" ++ toString s.fresh⟩,
      { s with
        trace := s.trace ++ [ApiCall.getBlob src a.sha,
          ApiCall.createBlob dst bd.content bd.encoding ("blob" ++ toString s.fresh)],
        fresh := s.fresh + 1 }, ?_, rfl, rfl,
      ⟨[ApiCall.getBlob src a.sha,
        ApiCall.createBlob dst bd.content bd.encoding ("blob" ++ toString s.fresh)],
        rfl, by simp [isCopyCallB]⟩, ?_, ?_⟩
    · simp [copyBlobClient, bind_run, getBlobM, recordM, mthrow, pure_run, createBlobM,
        freshShaM, hl]
    · intro b h
      injection h with h
      subst h
      exact ⟨rfl, rfl⟩
    · intro _
      exact ⟨_, rfl⟩

/-- A pointwise copy-step contract, shared by the two engines. -/
def PointSpec {α β : Type} (f : α → M β) (Q : α → β → Prop) (S : α → Prop) : Prop :=
  ∀ a s, ∃ res s1, f a s = (res, s1) ∧
    s1.logs = s.logs ∧ s1.refs = s.refs ∧
    (∃ t, s1.trace = s.trace ++ t ∧ ∀ c ∈ t, isCopyCallB c = true) ∧
    (∀ b, res = Except.ok b → Q a b) ∧ (S a → ∃ b, res = Except.ok b)

theorem mapMList_spec {α β : Type} (f : α → M β) (Q : α → β → Prop) (S : α → Prop)
    (hf : PointSpec f Q S) :
    ∀ (l : List α) (s : MSt), ∃ res s1, mapMList f l s = (res, s1) ∧
      s1.logs = s.logs ∧ s1.refs = s.refs ∧
      (∃ t, s1.trace = s.trace ++ t ∧ ∀ c ∈ t, isCopyCallB c = true) ∧
      (∀ bs, res = Except.ok bs → List.Forall₂ Q l bs) ∧
      ((∀ a ∈ l, S a) → ∃ bs, res = Except.ok bs) := by
  intro l
  induction l with
  | nil =>
    intro s
    refine ⟨Except.ok [], s, rfl, rfl, rfl, ⟨[], by simp, by simp⟩, ?_, ?_⟩
    · intro bs h
      injection h with h
      subst h
      exact List.Forall₂.nil
    · intro _
      exact ⟨[], rfl⟩
  | cons a l ih =>
    intro s
    obtain ⟨res, s1, heq, hlg, hrf, ⟨t1, htr, hP⟩, hQ, hS⟩ := hf a s
    cases res with
    | error e =>
      refine ⟨Except.error e, s1, ?_, hlg, hrf, ⟨t1, htr, hP⟩, ?_, ?_⟩
      · simp [mapMList, bind_run, heq]
      · intro bs h; simp at h
      · intro hall
        obtain ⟨b, hb⟩ := hS (hall a (by simp))
        simp at hb
    | ok b =>
      obtain ⟨res2, s2, heq2, hlg2, hrf2, ⟨t2, htr2, hP2⟩, hQ2, hS2⟩ := ih s1
      cases res2 with
      | error e =>
        refine ⟨Except.error e, s2, ?_, by rw [hlg2, hlg], by rw [hrf2, hrf],
          ⟨t1 ++ t2, by rw [htr2, htr, List.append_assoc], ?_⟩, ?_, ?_⟩
        · simp [mapMList, bind_run, heq, heq2]
        · intro c hc
          rcases List.mem_append.mp hc with h | h
          exacts [hP c h, hP2 c h]
        · intro bs h; simp at h
        · intro hall
          obtain ⟨bs, hbs⟩ := hS2 (fun x hx => hall x (by simp [hx]))
          simp at hbs
      | ok bs =>
        refine ⟨Except.ok (b :: bs), s2, ?_, by rw [hlg2, hlg], by rw [hrf2, hrf],
          ⟨t1 ++ t2, by rw [htr2, htr, List.append_assoc], ?_⟩, ?_, ?_⟩
        · simp [mapMList, bind_run, heq, heq2, pure_run]
        · intro c hc
          rcases List.mem_append.mp hc with h | h
          exacts [hP c h, hP2 c h]
        · intro bs2 h
          injection h with h
          subst h
          exact List.Forall₂.cons (hQ b rfl) (hQ2 bs rfl)
        · intro _
          exact ⟨b :: bs, rfl⟩

theorem copyWindows_spec {Q : SourceTreeEntry → NewTreeEntry → Prop}
    {S : SourceTreeEntry → Prop} (f : SourceTreeEntry → M NewTreeEntry)
    (hf : PointSpec f Q S) (mkMsg : Option (Nat → Nat → String)) (total : Nat) :
    ∀ (ws : List (List SourceTreeEntry)) (done : Nat) (s : MSt),
    ∃ res s1, copyWindows f mkMsg total done ws s = (res, s1) ∧
      s1.refs = s.refs ∧
      (∃ t, s1.trace = s.trace ++ t ∧ ∀ c ∈ t, isCopyCallB c = true) ∧
      (∃ lg, s1.logs = s.logs ++ lg ∧ (mkMsg = none → lg = []) ∧
        (∀ bs, res = Except.ok bs → ∀ mk, mkMsg = some mk →
          lg = progressList mk total done ws)) ∧
      (∀ bs, res = Except.ok bs → List.Forall₂ Q ws.flatten bs) ∧
      ((∀ a ∈ ws.flatten, S a) → ∃ bs, res = Except.ok bs) := by
  intro ws
  induction ws with
  | nil =>
    intro done s
    refine ⟨Except.ok [], s, rfl, rfl, ⟨[], by simp, by simp⟩,
      ⟨[], by simp, fun _ => rfl, ?_⟩, ?_, ?_⟩
    · intro bs h mk hmk
      cases hmk
      rfl
    · intro bs h
      injection h with h
      subst h
      exact List.Forall₂.nil
    · intro _
      exact ⟨[], rfl⟩
  | cons w ws ih =>
    intro done s
    obtain ⟨res, s1, heq, hlg, hrf, ⟨t1, htr, hP⟩, hQ, hS⟩ := mapMList_spec f Q S hf w s
    cases res with
    | error e =>
      refine ⟨Except.error e, s1, ?_, hrf, ⟨t1, htr, hP⟩,
        ⟨[], by simp [hlg], fun _ => rfl, ?_⟩, ?_, ?_⟩
      · simp [copyWindows, bind_run, heq]
      · intro bs h; simp at h
      · intro bs h; simp at h
      · intro hall
        obtain ⟨bs, hbs⟩ := hS (fun x hx => hall x (by simp [hx]))
        simp at hbs
    | ok bs1 =>
      cases hmk : mkMsg with
      | none =>
        subst hmk
        obtain ⟨res2, s2, heq2, hrf2, ⟨t2, htr2, hP2⟩, ⟨lg2, hlg2, hlgn2, hlgo2⟩, hQ2, hS2⟩ :=
          ih (done + w.length) s1
        cases res2 with
        | error e =>
          refine ⟨Except.error e, s2, ?_, by rw [hrf2, hrf],
            ⟨t1 ++ t2, by rw [htr2, htr, List.append_assoc], ?_⟩,
            ⟨lg2, by rw [hlg2, hlg], fun _ => hlgn2 rfl, ?_⟩, ?_, ?_⟩
          · simp [copyWindows, bind_run, heq, pure_run, heq2]
          · intro c hc
            rcases List.mem_append.mp hc with h | h
            exacts [hP c h, hP2 c h]
          · intro bs h; simp at h
          · intro bs h; simp at h
          · intro hall
            obtain ⟨bs, hbs⟩ := hS2 (fun x hx => hall x (by simp [hx]))
            simp at hbs
        | ok bs2 =>
          refine ⟨Except.ok (bs1 ++ bs2), s2, ?_, by rw [hrf2, hrf],
            ⟨t1 ++ t2, by rw [htr2, htr, List.append_assoc], ?_⟩,
            ⟨lg2, by rw [hlg2, hlg], fun _ => hlgn2 rfl, ?_⟩, ?_, ?_⟩
          · simp [copyWindows, bind_run, heq, pure_run, heq2]
          · intro c hc
            rcases List.mem_append.mp hc with h | h
            exacts [hP c h, hP2 c h]
          · intro bs h mk hmk2
            simp at hmk2
          · intro bs h
            injection h with h
            subst h
            simp only [List.flatten_cons]
            exact List.rel_append (hQ bs1 rfl) (hQ2 bs2 rfl)
          · intro _
            exact ⟨bs1 ++ bs2, rfl⟩
      | some mk =>
        subst hmk
        obtain ⟨res2, s2, heq2, hrf2, ⟨t2, htr2, hP2⟩, ⟨lg2, hlg2, hlgn2, hlgo2⟩, hQ2, hS2⟩ :=
          ih (done + w.length)
            { s1 with logs := s1.logs ++ [mk (done + w.length) total] }
        cases res2 with
        | error e =>
          refine ⟨Except.error e, s2, ?_, by simp only [hrf2]; rw [hrf],
            ⟨t1 ++ t2, by simp only [htr2]; rw [htr]; simp [List.append_assoc], ?_⟩,
            ⟨mk (done + w.length) total :: lg2,
              by simp only [hlg2]; rw [hlg]; simp, ?_, ?_⟩, ?_, ?_⟩
          · simp [copyWindows, bind_run, heq, logM, heq2]
          · intro c hc
            rcases List.mem_append.mp hc with h | h
            exacts [hP c h, hP2 c h]
          · intro h; simp at h
          · intro bs h; simp at h
          · intro bs h; simp at h
          · intro hall
            obtain ⟨bs, hbs⟩ := hS2 (fun x hx => hall x (by simp [hx]))
            simp at hbs
        | ok bs2 =>
          refine ⟨Except.ok (bs1 ++ bs2), s2, ?_, by simp only [hrf2]; rw [hrf],
            ⟨t1 ++ t2, by simp only [htr2]; rw [htr]; simp [List.append_assoc], ?_⟩,
            ⟨mk (done + w.length) total :: lg2,
              by simp only [hlg2]; rw [hlg]; simp, ?_, ?_⟩, ?_, ?_⟩
          · simp [copyWindows, bind_run, heq, logM, heq2, pure_run]
          · intro c hc
            rcases List.mem_append.mp hc with h | h
            exacts [hP c h, hP2 c h]
          · intro h; simp at h
          · intro bs h mk2 hmk2
            injection hmk2 with hmk2
            subst hmk2
            rw [progressList, hlgo2 bs2 rfl mk rfl]
          · intro bs h
            injection h with h
            subst h
            simp only [List.flatten_cons]
            exact List.rel_append (hQ bs1 rfl) (hQ2 bs2 rfl)
          · intro _
            exact ⟨bs1 ++ bs2, rfl⟩

theorem copyBatches_spec {Q : SourceTreeEntry → NewTreeEntry → Prop}
    {S : SourceTreeEntry → Prop} (f : SourceTreeEntry → M NewTreeEntry)
    (hf : PointSpec f Q S) (w : Nat) (mkMsg : Option (Nat → Nat → String)) :
    ∀ (l : List SourceTreeEntry) (s : MSt),
    ∃ res s1, copyBatches w f mkMsg l s = (res, s1) ∧
      s1.refs = s.refs ∧
      (∃ t, s1.trace = s.trace ++ t ∧ ∀ c ∈ t, isCopyCallB c = true) ∧
      (∃ lg, s1.logs = s.logs ++ lg ∧ (mkMsg = none → lg = []) ∧
        (∀ bs, res = Except.ok bs → ∀ mk, mkMsg = some mk →
          lg = progressList mk l.length 0 (windows w l))) ∧
      (∀ bs, res = Except.ok bs → List.Forall₂ Q l bs) ∧
      ((∀ a ∈ l, S a) → ∃ bs, res = Except.ok bs) := by
  intro l s
  obtain ⟨res, s1, heq, hrf, htr, hlg, hQ, hS⟩ :=
    copyWindows_spec f hf mkMsg l.length (windows w l) 0 s
  refine ⟨res, s1, heq, hrf, htr, hlg, ?_, ?_⟩
  · intro bs h
    have h2 := hQ bs h
    rwa [windows_flatten] at h2
  · intro hall
    refine hS ?_
    rwa [windows_flatten]

theorem refTarget_getTree (r : RepoId) (ref : String) :
    refTarget (ApiCall.getTree r ref) = none := rfl

theorem refOk_copy_chunk (t : List ApiCall) (h : ∀ c ∈ t, isCopyCallB c = true) :
    ∀ C, refOk C t = true :=
  refOk_of_no_refTarget t (fun c hc => (copyCall_facts c (h c hc)).1)

/-- Behaviour of the replication of one secondary branch: its trace chunk is
always ref-safe, a missing tree makes it fail, and a fully fetchable branch
makes it succeed with a log line and a commit-creation call naming the
branch. -/
theorem replicateOne_spec (env : Env) (src dst : RepoId) (baseCommit : String)
    (b : BranchInfo) (s : MSt) :
    ∃ res s1 t lg, replicateOne env src dst baseCommit b s = (res, s1) ∧
      s1.trace = s.trace ++ t ∧ s1.logs = s.logs ++ lg ∧
      (∀ C, refOk C t = true) ∧
      (lookupA env.trees (src, b.commitSha) = none → ∃ e, res = Except.error e) ∧
      (branchReady env src b → res = Except.ok () ∧
        ("🔀 Branch \x27" ++ b.name ++ "\x27 copiado") ∈ lg ∧
        ∃ trSha ps sha,
          ApiCall.createCommit dst ("📦 Mirror branch: " ++ b.name) trSha ps sha ∈ t) := by
  cases htree : lookupA env.trees (src, b.commitSha) with
  | none =>
    refine ⟨Except.error ("GitHub API 404: tree " ++ b.commitSha),
      { s with trace := s.trace ++ [ApiCall.getTree src b.commitSha] },
      [ApiCall.getTree src b.commitSha], [], ?_, rfl, by simp, ?_, ?_, ?_⟩
    · simp [replicateOne, bind_run, getTreeM, recordM, mthrow, htree]
    · refine refOk_of_no_refTarget _ ?_
      intro c hc
      simp only [List.mem_singleton] at hc
      subst hc
      rfl
    · intro _
      exact ⟨_, rfl⟩
    · intro hready
      obtain ⟨tr, htr3, _⟩ := hready
      rw [htree] at htr3
      simp at htr3
  | some bt =>
    obtain ⟨res2, s2, heq2, hrf2, ⟨t2, htr2, hP2⟩, ⟨lg2, hlg2, hlgn2, _⟩, hQ2, hS2⟩ :=
      copyBatches_spec (copyBlobServer env src dst) (copyBlobServer_point env src dst) 10 none
        (bt.filter (fun e => e.type == "blob"))
        { s with trace := s.trace ++ [ApiCall.getTree src b.commitSha] }
    have hlg0 : lg2 = [] := hlgn2 rfl
    subst hlg0
    cases res2 with
    | error e =>
      refine ⟨Except.error e, s2, ApiCall.getTree src b.commitSha :: t2, [], ?_, ?_, ?_,
        ?_, ?_, ?_⟩
      · simp [replicateOne, bind_run, getTreeM, recordM, mthrow, pure_run, htree, heq2]
      · rw [htr2]; simp
      · simp [hlg2]
      · refine refOk_of_no_refTarget _ ?_
        intro c hc
        rcases List.mem_cons.mp hc with hc | hc
        · subst hc; rfl
        · exact (copyCall_facts c (hP2 c hc)).1
      · intro _
        exact ⟨_, rfl⟩
      · intro hready
        obtain ⟨tr, htr3, hblobs⟩ := hready
        rw [htree] at htr3
        injection htr3 with htr3
        subst htr3
        obtain ⟨bs, hbs⟩ := hS2 (fun a ha => hblobs a ha)
        simp at hbs
    | ok bentries =>
      cases hlook : lookupA s2.refs (dst, b.name) with
      | some oldSha =>
        refine ⟨Except.ok (),
          { logs := s2.logs ++ ["🔀 Branch \x27" ++ b.name ++ "\x27 copiado"],
            trace := s2.trace ++
              [ApiCall.createTree dst bentries ("tree" ++ toString s2.fresh),
               ApiCall.createCommit dst ("📦 Mirror branch: " ++ b.name)
                 ("tree" ++ toString s2.fresh) [baseCommit]
                 ("commit" ++ toString (s2.fresh + 1)),
               ApiCall.createRef dst b.name ("commit" ++ toString (s2.fresh + 1)),
               ApiCall.updateRef dst b.name ("commit" ++ toString (s2.fresh + 1))],
            fresh := s2.fresh + 2,
            refs := ((dst, b.name), "commit" ++ toString (s2.fresh + 1)) :: s2.refs },
          ApiCall.getTree src b.commitSha :: (t2 ++
              [ApiCall.createTree dst bentries ("tree" ++ toString s2.fresh),
               ApiCall.createCommit dst ("📦 Mirror branch: " ++ b.name)
                 ("tree" ++ toString s2.fresh) [baseCommit]
                 ("commit" ++ toString (s2.fresh + 1)),
               ApiCall.createRef dst b.name ("commit" ++ toString (s2.fresh + 1)),
               ApiCall.updateRef dst b.name ("commit" ++ toString (s2.fresh + 1))]),
          ["🔀 Branch \x27" ++ b.name ++ "\x27 copiado"], ?_, ?_, ?_, ?_, ?_, ?_⟩
        ·
          simp [replicateOne, bind_run, getTreeM, recordM, mthrow, pure_run, htree, heq2,
            createTreeM, createCommitM, freshShaM, mcatch_run, createRefM, updateRefM,
            readState, modifySt, logM, hlook]
        ·
          rw [htr2]; simp
        ·
          rw [hlg2]; simp
        ·
          intro C
          rw [refOk]
          simp only [refTarget, commitShaOf]
          refine refOk_append_right C t2 _ (refOk_copy_chunk t2 hP2 C) ?_
          intro C2
          simp [refOk, refTarget, commitShaOf, List.contains]
        ·
          intro h
          exact Option.noConfusion h
        ·
          intro _
          refine ⟨rfl, by simp, ?_⟩
          refine ⟨"tree" ++ toString s2.fresh, [baseCommit],
            "commit" ++ toString (s2.fresh + 1), ?_⟩
          simp
      | none =>
        refine ⟨Except.ok (),
          { logs := s2.logs ++ ["🔀 Branch \x27" ++ b.name ++ "\x27 copiado"],
            trace := s2.trace ++
              [ApiCall.createTree dst bentries ("tree" ++ toString s2.fresh),
               ApiCall.createCommit dst ("📦 Mirror branch: " ++ b.name)
                 ("tree" ++ toString s2.fresh) [baseCommit]
                 ("commit" ++ toString (s2.fresh + 1)),
               ApiCall.createRef dst b.name ("commit" ++ toString (s2.fresh + 1))],
            fresh := s2.fresh + 2,
            refs := ((dst, b.name), "commit" ++ toString (s2.fresh + 1)) :: s2.refs },
          ApiCall.getTree src b.commitSha :: (t2 ++
              [ApiCall.createTree dst bentries ("tree" ++ toString s2.fresh),
               ApiCall.createCommit dst ("📦 Mirror branch: " ++ b.name)
                 ("tree" ++ toString s2.fresh) [baseCommit]
                 ("commit" ++ toString (s2.fresh + 1)),
               ApiCall.createRef dst b.name ("commit" ++ toString (s2.fresh + 1))]),
          ["🔀 Branch \x27" ++ b.name ++ "\x27 copiado"], ?_, ?_, ?_, ?_, ?_, ?_⟩
        ·
          simp [replicateOne, bind_run, getTreeM, recordM, mthrow, pure_run, htree, heq2,
            createTreeM, createCommitM, freshShaM, mcatch_run, createRefM, updateRefM,
            readState, modifySt, logM, hlook]
        ·
          rw [htr2]; simp
        ·
          rw [hlg2]; simp
        ·
          intro C
          rw [refOk]
          simp only [refTarget, commitShaOf]
          refine refOk_append_right C t2 _ (refOk_copy_chunk t2 hP2 C) ?_
          intro C2
          simp [refOk, refTarget, commitShaOf, List.contains]
        ·
          intro h
          exact Option.noConfusion h
        ·
          intro _
          refine ⟨rfl, by simp, ?_⟩
          refine ⟨"tree" ++ toString s2.fresh, [baseCommit],
            "commit" ++ toString (s2.fresh + 1), ?_⟩
          simp

/-- Behaviour of the whole secondary-branch loop: it always returns `ok`
(per-branch isolation), its chunk is ref-safe, a non-default branch with a
missing tree gets one warning log naming it, and every non-default fully
fetchable branch gets its success log and commit creation. -/
theorem replicateBranches_spec (env : Env) (src dst : RepoId) (sBranch baseCommit : String) :
    ∀ (bs : List BranchInfo) (s : MSt),
    ∃ s1 t lg, replicateBranches env src dst sBranch baseCommit bs s = (Except.ok (), s1) ∧
      s1.trace = s.trace ++ t ∧ s1.logs = s.logs ++ lg ∧
      (∀ C, refOk C t = true) ∧
      (∀ b ∈ bs, b.name ≠ sBranch →
        lookupA env.trees (src, b.commitSha) = none →
        ∃ e, ("⚠️ Erro ao copiar branch \x27" ++ b.name ++ "\x27: " ++ e) ∈ lg) ∧
      (∀ b ∈ bs, b.name ≠ sBranch → branchReady env src b →
        ("🔀 Branch \x27" ++ b.name ++ "\x27 copiado") ∈ lg ∧
        ∃ trSha ps sha,
          ApiCall.createCommit dst ("📦 Mirror branch: " ++ b.name) trSha ps sha ∈ t) := by
  intro bs
  induction bs with
  | nil =>
    intro s
    exact ⟨s, [], [], rfl, by simp, by simp, fun C => rfl, by simp, by simp⟩
  | cons b rest ih =>
    intro s
    by_cases hname : b.name = sBranch
    · obtain ⟨s2, t2, lg2, heq2, htr2, hlg2, hrefok2, hnone2, hready2⟩ := ih s
      have hbeq : (b.name == sBranch) = true := by simp [hname]
      refine ⟨s2, t2, lg2, ?_, htr2, hlg2, hrefok2, ?_, ?_⟩
      · simp [replicateBranches, hbeq, heq2]
      · intro b2 hb2 hname2 hlk
        rcases List.mem_cons.mp hb2 with hb2 | hb2
        · subst hb2; exact absurd hname (by exact hname2)
        · exact hnone2 b2 hb2 hname2 hlk
      · intro b2 hb2 hname2 hready
        rcases List.mem_cons.mp hb2 with hb2 | hb2
        · subst hb2; exact absurd hname (by exact hname2)
        · exact hready2 b2 hb2 hname2 hready
    · have hbeq : (b.name == sBranch) = false := by simp [hname]
      obtain ⟨res1, s1, t1, lg1, heq1, htr1, hlg1, hrefok1, hnone1, hready1⟩ :=
        replicateOne_spec env src dst baseCommit b s
      cases res1 with
      | ok u =>
        obtain ⟨s2, t2, lg2, heq2, htr2, hlg2, hrefok2, hnone2, hready2⟩ := ih s1
        refine ⟨s2, t1 ++ t2, lg1 ++ lg2, ?_, ?_, ?_, ?_, ?_, ?_⟩
        · simp [replicateBranches, hbeq, bind_run, mcatch_run, heq1, heq2]
        · rw [htr2, htr1, List.append_assoc]
        · rw [hlg2, hlg1, List.append_assoc]
        · intro C
          exact refOk_append_right C t1 t2 (hrefok1 C) hrefok2
        · intro b2 hb2 hname2 hlk
          rcases List.mem_cons.mp hb2 with hb2 | hb2
          · subst hb2
            obtain ⟨e, he⟩ := hnone1 hlk
            simp at he
          · obtain ⟨e, he⟩ := hnone2 b2 hb2 hname2 hlk
            exact ⟨e, by simp [he]⟩
        · intro b2 hb2 hname2 hready
          rcases List.mem_cons.mp hb2 with hb2 | hb2
          · subst hb2
            obtain ⟨_, hmem, trSha, ps, sha, hcm⟩ := hready1 hready
            exact ⟨by simp [hmem], trSha, ps, sha, by simp [hcm]⟩
          · obtain ⟨hmem, trSha, ps, sha, hcm⟩ := hready2 b2 hb2 hname2 hready
            exact ⟨by simp [hmem], trSha, ps, sha, by simp [hcm]⟩
      | error e =>
        obtain ⟨s2, t2, lg2, heq2, htr2, hlg2, hrefok2, hnone2, hready2⟩ :=
          ih { s1 with logs := s1.logs ++
            ["⚠️ Erro ao copiar branch \x27" ++ b.name ++ "\x27: " ++ e] }
        refine ⟨s2, t1 ++ t2,
          (lg1 ++ ["⚠️ Erro ao copiar branch \x27" ++ b.name ++ "\x27: " ++ e]) ++ lg2,
          ?_, ?_, ?_, ?_, ?_, ?_⟩
        · simp [replicateBranches, hbeq, bind_run, mcatch_run, heq1, logM, heq2]
        · simp only [htr2]
          rw [htr1]
          simp [List.append_assoc]
        · simp only [hlg2]
          rw [hlg1]
          simp [List.append_assoc]
        · intro C
          exact refOk_append_right C t1 t2 (hrefok1 C) hrefok2
        · intro b2 hb2 hname2 hlk
          rcases List.mem_cons.mp hb2 with hb2 | hb2
          · subst hb2
            exact ⟨e, by simp⟩
          · obtain ⟨e2, he2⟩ := hnone2 b2 hb2 hname2 hlk
            exact ⟨e2, by simp [he2]⟩
        · intro b2 hb2 hname2 hready
          rcases List.mem_cons.mp hb2 with hb2 | hb2
          · subst hb2
            obtain ⟨hok, _⟩ := hready1 hready
            simp at hok
          · obtain ⟨hmem, trSha, ps, sha, hcm⟩ := hready2 b2 hb2 hname2 hready
            exact ⟨by simp [hmem], trSha, ps, sha, by simp [hcm]⟩

/-- The replication phase as a whole (with its gating `if` and header log)
always succeeds, and its trace chunk is ref-safe. -/
theorem serverReplicate_spec (env : Env) (src dst : RepoId) (sBranch baseCommit : String)
    (branches : List BranchInfo) (s : MSt) :
    ∃ s1 t lg, serverReplicate env src dst sBranch baseCommit branches s = (Except.ok (), s1) ∧
      s1.trace = s.trace ++ t ∧ s1.logs = s.logs ++ lg ∧ (∀ C, refOk C t = true) := by
  by_cases hb : branches.length > 1
  · obtain ⟨s1, t, lg, heq, htr, hlg, hrefok, _, _⟩ :=
      replicateBranches_spec env src dst sBranch baseCommit branches
        { s with logs := s.logs ++ ["🔀 Copiando branches adicionais..."] }
    refine ⟨s1, t, "🔀 Copiando branches adicionais..." :: lg, ?_, ?_, ?_, hrefok⟩
    · simp [serverReplicate, hb, bind_run, logM, heq]
    · simpa using htr
    · simp only [hlg]
      simp
  · exact ⟨s, [], [], by simp [serverReplicate, hb, pure_run], by simp, by simp, fun C => rfl⟩

/-! Composition lemmas and uniform phase contracts used to walk whole runs. -/

theorem bind_ok {α β : Type} (m : M α) (f : α → M β) (s s1 : MSt) (a : α)
    (h : m s = (Except.ok a, s1)) : (m >>= f) s = f a s1 := by
  rw [bind_run, h]

theorem bind_err {α β : Type} (m : M α) (f : α → M β) (s s1 : MSt) (e : String)
    (h : m s = (Except.error e, s1)) : (m >>= f) s = (Except.error e, s1) := by
  rw [bind_run, h]

theorem refOk_append_all (t1 t2 : List ApiCall) (h1 : ∀ C, refOk C t1 = true)
    (h2 : ∀ C, refOk C t2 = true) : ∀ C, refOk C (t1 ++ t2) = true :=
  fun C => refOk_append_right C t1 t2 (h1 C) h2

theorem isCreateBlobB_le_isWriteB (c : ApiCall) (h : isWriteB c = false) :
    isCreateBlobB c = false := by
  cases c <;> simp_all [isWriteB, isCreateBlobB]

theorem getLast?_append_pair {α : Type} (xs : List α) (a b : α) :
    (xs ++ [a, b]).getLast? = some b := by
  have h : xs ++ [a, b] = (xs ++ [a]) ++ [b] := by simp
  rw [h, List.getLast?_concat]

/-- A quiet call: read-only, not a tree listing, moves no ref. -/
def QuietC (c : ApiCall) : Prop :=
  isWriteB c = false ∧ refTarget c = none ∧ isGetTreeB c = false

theorem quiet_getRepo (r : RepoId) : QuietC (ApiCall.getRepo r) := ⟨rfl, rfl, rfl⟩

theorem quiet_listBranches (r : RepoId) (p : Nat) : QuietC (ApiCall.listBranches r p) :=
  ⟨rfl, rfl, rfl⟩

theorem quiet_getRef (r : RepoId) (b : String) : QuietC (ApiCall.getRef r b) := ⟨rfl, rfl, rfl⟩

theorem serverValidateSource_spec (env : Env) (su : String) (s : MSt) :
    ∃ res s1 t, serverValidateSource env su s = (res, s1) ∧
      s1.trace = s.trace ++ t ∧ (∃ lg, s1.logs = s.logs ++ lg) ∧
      ∀ c ∈ t, QuietC c := by
  rw [serverValidateSource_run]
  cases hp : parseRepoUrl su with
  | none =>
    simp only [hp]
    exact ⟨_, _, [], rfl, by simp, ⟨["🔍 Validando repositório de origem..."], rfl⟩, by simp⟩
  | some pr =>
    obtain ⟨o, n⟩ := pr
    simp only [hp]
    cases hl : lookupA env.repos ⟨o, n⟩ with
    | none =>
      simp only [hl]
      refine ⟨_, _, [ApiCall.getRepo ⟨o, n⟩], rfl, rfl,
        ⟨["🔍 Validando repositório de origem..."], rfl⟩, ?_⟩
      intro c hc
      simp only [List.mem_singleton] at hc
      subst hc
      exact quiet_getRepo _
    | some d =>
      simp only [hl]
      refine ⟨_, _, [ApiCall.getRepo ⟨o, n⟩], rfl, rfl, ⟨_, rfl⟩, ?_⟩
      intro c hc
      simp only [List.mem_singleton] at hc
      subst hc
      exact quiet_getRepo _

theorem serverValidateDest_spec (env : Env) (du : String) (s : MSt) :
    ∃ res s1 t, serverValidateDest env du s = (res, s1) ∧
      s1.trace = s.trace ++ t ∧ (∃ lg, s1.logs = s.logs ++ lg) ∧
      ∀ c ∈ t, QuietC c := by
  rw [serverValidateDest_run]
  cases hp : parseRepoUrl du with
  | none =>
    simp only [hp]
    exact ⟨_, _, [], rfl, by simp, ⟨["🔍 Validando repositório de destino..."], rfl⟩, by simp⟩
  | some pr =>
    obtain ⟨o, n⟩ := pr
    simp only [hp]
    cases hl : lookupA env.repos ⟨o, n⟩ with
    | none =>
      simp only [hl]
      refine ⟨_, _, [ApiCall.getRepo ⟨o, n⟩], rfl, rfl,
        ⟨["🔍 Validando repositório de destino..."], rfl⟩, ?_⟩
      intro c hc
      simp only [List.mem_singleton] at hc
      subst hc
      exact quiet_getRepo _
    | some d =>
      simp only [hl]
      refine ⟨_, _, [ApiCall.getRepo ⟨o, n⟩], rfl, rfl, ⟨_, rfl⟩, ?_⟩
      intro c hc
      simp only [List.mem_singleton] at hc
      subst hc
      exact quiet_getRepo _

theorem serverFetchTree_spec (env : Env) (src : RepoId) (sBranch : String) (s : MSt) :
    ∃ res s1, serverFetchTree env src sBranch s = (res, s1) ∧
      s1.trace = s.trace ++ [ApiCall.getTree src sBranch] ∧
      (∃ lg, s1.logs = s.logs ++ lg) := by
  rw [serverFetchTree_run]
  cases hl : lookupA env.trees (src, sBranch) with
  | none =>
    simp only [hl]
    exact ⟨_, _, rfl, rfl, ⟨_, rfl⟩⟩
  | some tr =>
    simp only [hl]
    exact ⟨_, _, rfl, rfl, ⟨_, rfl⟩⟩

theorem serverWipe_spec (dst : RepoId) (dBranch : String) (s : MSt) :
    ∃ res s1 t, serverWipe dst dBranch s = (res, s1) ∧
      s1.trace = s.trace ++ t ∧ (∃ lg, s1.logs = s.logs ++ lg) ∧
      (∀ C, refOk C t = true) ∧
      (∀ c ∈ t, isCreateBlobB c = false ∧ isGetTreeB c = false) ∧
      (∀ u : Unit, res = Except.ok u → ∃ c ∈ t, isUpdateRefAnyB c = true) := by
  rw [serverWipe_run]
  cases hl : lookupA s.refs (dst, dBranch) with
  | none =>
    simp only [hl]
    refine ⟨_, _, [ApiCall.getRef dst dBranch], rfl, rfl, ⟨_, rfl⟩, ?_, ?_, ?_⟩
    · refine refOk_of_no_refTarget _ ?_
      intro c hc
      simp only [List.mem_singleton] at hc
      subst hc
      rfl
    · intro c hc
      simp only [List.mem_singleton] at hc
      subst hc
      exact ⟨rfl, rfl⟩
    · intro u h
      simp at h
  | some head =>
    simp only [hl]
    refine ⟨_, _, [ApiCall.getRef dst dBranch,
      ApiCall.createTree dst [] ("tree" ++ toString s.fresh),
      ApiCall.createCommit dst "🗑️ Limpar repositório para mirror"
        ("tree" ++ toString s.fresh) [head] ("commit" ++ toString (s.fresh + 1)),
      ApiCall.updateRef dst dBranch ("commit" ++ toString (s.fresh + 1))],
      rfl, by simp,
      ⟨["🗑️ Limpando repositório de destino...", "✅ Destino limpo"], by simp⟩, ?_, ?_, ?_⟩
    · intro C
      simp [refOk, refTarget, commitShaOf, List.contains]
    · intro c hc
      simp only [List.mem_cons, List.not_mem_nil, or_false] at hc
      rcases hc with hc | hc | hc | hc <;> (subst hc; exact ⟨rfl, rfl⟩)
    · intro u _
      refine ⟨ApiCall.updateRef dst dBranch ("commit" ++ toString (s.fresh + 1)), ?_, rfl⟩
      simp

theorem serverCopyDefault_spec (env : Env) (src dst : RepoId)
    (blobs : List SourceTreeEntry) (s : MSt) :
    ∃ res s1 t, serverCopyDefault env src dst blobs s = (res, s1) ∧
      s1.trace = s.trace ++ t ∧ (∃ lg, s1.logs = s.logs ++ lg) ∧
      ∀ c ∈ t, isCopyCallB c = true := by
  obtain ⟨res, s1, heq, hrf, ⟨t, htr, hP⟩, ⟨lg, hlg, _, _⟩, _, _⟩ :=
    copyBatches_spec (copyBlobServer env src dst) (copyBlobServer_point env src dst) 10
      (some serverProgressMsg) blobs { s with logs := s.logs ++ ["📦 Copiando arquivos..."] }
  refine ⟨res, s1, t, ?_, ?_, ⟨"📦 Copiando arquivos..." :: lg, ?_⟩, hP⟩
  · simp [serverCopyDefault, bind_run, logM, heq]
  · simpa using htr
  · simp only [hlg]
    simp

theorem serverCommitDefault_spec (dst : RepoId) (dBranch fullName : String)
    (entries : List NewTreeEntry) (s : MSt) :
    ∃ res s1 t, serverCommitDefault dst dBranch fullName entries s = (res, s1) ∧
      s1.trace = s.trace ++ t ∧ (∃ lg, s1.logs = s.logs ++ lg) ∧
      (∀ C, refOk C t = true) := by
  rw [serverCommitDefault_run]
  cases hl : lookupA s.refs (dst, dBranch) with
  | none =>
    simp only [hl]
    refine ⟨_, _, [ApiCall.getRef dst dBranch], rfl, rfl, ⟨_, rfl⟩, ?_⟩
    refine refOk_of_no_refTarget _ ?_
    intro c hc
    simp only [List.mem_singleton] at hc
    subst hc
    rfl
  | some head =>
    simp only [hl]
    refine ⟨_, _, [ApiCall.getRef dst dBranch,
      ApiCall.createTree dst entries ("tree" ++ toString s.fresh),
      ApiCall.createCommit dst
        ("📦 Mirror de " ++ fullName ++ "\n\nCopiado via GitHub Repo Mirror")
        ("tree" ++ toString s.fresh) [head] ("commit" ++ toString (s.fresh + 1)),
      ApiCall.updateRef dst dBranch ("commit" ++ toString (s.fresh + 1))],
      rfl, by simp, ⟨["🌳 Criando árvore no destino..."], by simp⟩, ?_⟩
    intro C
    simp [refOk, refTarget, commitShaOf, List.contains]

theorem validateRepoM_spec (env : Env) (url : String) (s : MSt) :
    ∃ res s1 t, validateRepoM env url s = (res, s1) ∧
      s1.trace = s.trace ++ t ∧ s1.logs = s.logs ∧
      ∀ c ∈ t, QuietC c := by
  rw [validateRepoM_run]
  cases hp : parseRepoUrl url with
  | none =>
    simp only [hp]
    exact ⟨_, _, [], rfl, by simp, rfl, by simp⟩
  | some pr =>
    obtain ⟨o, n⟩ := pr
    simp only [hp]
    cases hl : lookupA env.repos ⟨o, n⟩ with
    | none =>
      simp only [hl]
      refine ⟨_, _, [ApiCall.getRepo ⟨o, n⟩], rfl, rfl, rfl, ?_⟩
      intro c hc
      simp only [List.mem_singleton] at hc
      subst hc
      exact quiet_getRepo _
    | some d =>
      simp only [hl]
      refine ⟨_, _, [ApiCall.getRepo ⟨o, n⟩], rfl, rfl, rfl, ?_⟩
      intro c hc
      simp only [List.mem_singleton] at hc
      subst hc
      exact quiet_getRepo _

theorem deleteAllContents_spec (dst : RepoId) (branch : String) (s : MSt) :
    ∃ res s1 t, deleteAllContents dst branch s = (res, s1) ∧
      s1.trace = s.trace ++ t ∧ (∃ lg, s1.logs = s.logs ++ lg) ∧
      (∀ C, refOk C t = true) ∧
      (∀ c ∈ t, isCreateBlobB c = false ∧ isGetTreeB c = false) ∧
      (∀ u : Unit, res = Except.ok u → ∃ c ∈ t, isUpdateRefAnyB c = true) := by
  rw [deleteAllContents_run]
  cases hl : lookupA s.refs (dst, branch) with
  | none =>
    simp only [hl]
    refine ⟨_, _, [ApiCall.getRef dst branch], rfl, rfl, ⟨_, rfl⟩, ?_, ?_, ?_⟩
    · refine refOk_of_no_refTarget _ ?_
      intro c hc
      simp only [List.mem_singleton] at hc
      subst hc
      rfl
    · intro c hc
      simp only [List.mem_singleton] at hc
      subst hc
      exact ⟨rfl, rfl⟩
    · intro u h
      simp at h
  | some head =>
    simp only [hl]
    refine ⟨_, _, [ApiCall.getRef dst branch,
      ApiCall.createTree dst [] ("tree" ++ toString s.fresh),
      ApiCall.createCommit dst "🗑️ Limpar repositório para mirror"
        ("tree" ++ toString s.fresh) [head] ("commit" ++ toString (s.fresh + 1)),
      ApiCall.updateRef dst branch ("commit" ++ toString (s.fresh + 1))],
      rfl, by simp,
      ⟨["Obtendo referência do branch de destino...", "Conteúdo do destino removido ✓"],
        by simp⟩, ?_, ?_, ?_⟩
    · intro C
      simp [refOk, refTarget, commitShaOf, List.contains]
    · intro c hc
      simp only [List.mem_cons, List.not_mem_nil, or_false] at hc
      rcases hc with hc | hc | hc | hc <;> (subst hc; exact ⟨rfl, rfl⟩)
    · intro u _
      refine ⟨ApiCall.updateRef dst branch ("commit" ++ toString (s.fresh + 1)), ?_, rfl⟩
      simp

theorem getTreeM_spec (env : Env) (r : RepoId) (ref : String) (s : MSt) :
    ∃ res s1, getTreeM env r ref s = (res, s1) ∧
      s1.trace = s.trace ++ [ApiCall.getTree r ref] ∧ s1.logs = s.logs := by
  cases hl : lookupA env.trees (r, ref) with
  | none =>
    refine ⟨Except.error ("GitHub API 404: tree " ++ ref),
      { s with trace := s.trace ++ [ApiCall.getTree r ref] }, ?_, rfl, rfl⟩
    simp [getTreeM, bind_run, recordM, mthrow, pure_run, hl]
  | some tr =>
    refine ⟨Except.ok tr,
      { s with trace := s.trace ++ [ApiCall.getTree r ref] }, ?_, rfl, rfl⟩
    simp [getTreeM, bind_run, recordM, mthrow, pure_run, hl]

theorem quiet_refOk (t : List ApiCall) (h : ∀ c ∈ t, QuietC c) : ∀ C, refOk C t = true :=
  refOk_of_no_refTarget t (fun c hc => (h c hc).2.1)

theorem lb_shape_refOk (t : List ApiCall)
    (h : ∀ c ∈ t, ∃ r p, c = ApiCall.listBranches r p) : ∀ C, refOk C t = true :=
  refOk_of_no_refTarget t (fun c hc => by obtain ⟨r, p, rfl⟩ := h c hc; rfl)

theorem singleton_getTree_refOk (r : RepoId) (ref : String) :
    ∀ C, refOk C [ApiCall.getTree r ref] = true :=
  refOk_of_no_refTarget _ (fun c hc => by
    simp only [List.mem_singleton] at hc
    subst hc
    rfl)

/-- The whole server run, for any environment and inputs: its trace is
ref-safe, every destination write is preceded by a source tree listing,
every blob upload is preceded by a ref force-update (the wipe), and a
successful run's last log line is the summary. -/
theorem serverRun_master (env : Env) (su du : String) :
    ∃ res st, runServer env su du = (res, st) ∧
      refOk [] st.trace = true ∧
      firstRequires isWriteB isGetTreeB st.trace ∧
      firstRequires isCreateBlobB isUpdateRefAnyB st.trace ∧
      (res = Except.ok () → ∃ k b : Nat, st.logs.getLast? =
        some ("📊 Resumo: " ++ toString k ++ " arquivos, " ++ toString b ++
          " branch(es) copiado(s)")) := by
  obtain ⟨res1, s1, t1, heq1, htr1, ⟨lg1, hlg1⟩, hq1⟩ :=
    serverValidateSource_spec env su (initSt env)
  have htr1' : s1.trace = t1 := by simpa [initSt] using htr1
  cases res1 with
  | error e =>
    refine ⟨Except.error e, s1, ?_, ?_, ?_, ?_, ?_⟩
    · simp only [runServer, mirrorRepoServer, bind_run, heq1]
    · rw [htr1']
      exact quiet_refOk t1 hq1 []
    · exact firstRequires_of_none _ _ _ (fun c hc => (hq1 c (htr1' ▸ hc)).1)
    · exact firstRequires_of_none _ _ _
        (fun c hc => isCreateBlobB_le_isWriteB c (hq1 c (htr1' ▸ hc)).1)
    · intro h
      exact absurd h (by simp)
  | ok sv =>
    obtain ⟨res2, s2, t2, heq2, htr2, ⟨lg2, hlg2⟩, hq2⟩ := serverValidateDest_spec env du s1
    have htr2' : s2.trace = t1 ++ t2 := by rw [htr2, htr1']
    cases res2 with
    | error e =>
      refine ⟨Except.error e, s2, ?_, ?_, ?_, ?_, ?_⟩
      · simp only [runServer, mirrorRepoServer, bind_run, heq1, heq2]
      · rw [htr2']
        exact refOk_append_all t1 t2 (quiet_refOk t1 hq1) (quiet_refOk t2 hq2) []
      · refine firstRequires_of_none _ _ _ ?_
        intro c hc
        rw [htr2'] at hc
        rcases List.mem_append.mp hc with h | h
        exacts [(hq1 c h).1, (hq2 c h).1]
      · refine firstRequires_of_none _ _ _ ?_
        intro c hc
        rw [htr2'] at hc
        rcases List.mem_append.mp hc with h | h
        exacts [isCreateBlobB_le_isWriteB c (hq1 c h).1, isCreateBlobB_le_isWriteB c (hq2 c h).1]
      · intro h
        exact absurd h (by simp)
    | ok dv =>
      obtain ⟨bs, s3, heq3, hfr3, hrf3, ⟨lg3, hlg3⟩, t3, htr3, hsh3⟩ :=
        serverListBranches_spec env sv.1 s2
      have htr3' : s3.trace = t1 ++ (t2 ++ t3) := by rw [htr3, htr2']; simp
      obtain ⟨res4, s4, heq4, htr4, ⟨lg4, hlg4⟩⟩ :=
        serverFetchTree_spec env sv.1 sv.2.defaultBranch s3
      have htr4' : s4.trace =
          t1 ++ (t2 ++ (t3 ++ [ApiCall.getTree sv.1 sv.2.defaultBranch])) := by
        rw [htr4, htr3']
        simp
      have hnw4 : ∀ c ∈ t1 ++ (t2 ++ (t3 ++ [ApiCall.getTree sv.1 sv.2.defaultBranch])),
          isWriteB c = false := by
        intro c hc
        rcases List.mem_append.mp hc with h | h
        · exact (hq1 c h).1
        rcases List.mem_append.mp h with h | h
        · exact (hq2 c h).1
        rcases List.mem_append.mp h with h | h
        · obtain ⟨r2, p2, rfl⟩ := hsh3 c h
          rfl
        · simp only [List.mem_singleton] at h
          subst h
          rfl
      have hgt4 : ∃ c ∈ t1 ++ (t2 ++ (t3 ++ [ApiCall.getTree sv.1 sv.2.defaultBranch])),
          isGetTreeB c = true :=
        ⟨ApiCall.getTree sv.1 sv.2.defaultBranch, by simp, rfl⟩
      have hro4 : ∀ C, refOk C
          (t1 ++ (t2 ++ (t3 ++ [ApiCall.getTree sv.1 sv.2.defaultBranch]))) = true :=
        refOk_append_all _ _ (quiet_refOk t1 hq1)
          (refOk_append_all _ _ (quiet_refOk t2 hq2)
            (refOk_append_all _ _ (lb_shape_refOk t3 hsh3)
              (singleton_getTree_refOk _ _)))
      cases res4 with
      | error e =>
        refine ⟨Except.error e, s4, ?_, ?_, ?_, ?_, ?_⟩
        · simp only [runServer, mirrorRepoServer, bind_run, heq1, heq2, heq3, heq4]
        · rw [htr4']
          exact hro4 []
        · rw [htr4']
          have h2 : t1 ++ (t2 ++ (t3 ++ [ApiCall.getTree sv.1 sv.2.defaultBranch]))
              = (t1 ++ (t2 ++ (t3 ++ [ApiCall.getTree sv.1 sv.2.defaultBranch]))) ++ [] := by
            simp
          rw [h2]
          exact firstRequires_of_split _ _ _ _ hnw4 hgt4
        · rw [htr4']
          exact firstRequires_of_none _ _ _
            (fun c hc => isCreateBlobB_le_isWriteB c (hnw4 c hc))
        · intro h
          exact absurd h (by simp)
      | ok blobs =>
        obtain ⟨res5, s5, t5, heq5, htr5, ⟨lg5, hlg5⟩, hrefok5, hnb5, hupd5⟩ :=
          serverWipe_spec dv.1 dv.2.defaultBranch s4
        have htr5' : s5.trace =
            t1 ++ (t2 ++ (t3 ++ ([ApiCall.getTree sv.1 sv.2.defaultBranch] ++ t5))) := by
          rw [htr5, htr4']
          simp
        have hnb5' : ∀ c ∈ t1 ++ (t2 ++ (t3 ++
            ([ApiCall.getTree sv.1 sv.2.defaultBranch] ++ t5))), isCreateBlobB c = false := by
          intro c hc
          rcases List.mem_append.mp hc with h | h
          · exact isCreateBlobB_le_isWriteB c (hq1 c h).1
          rcases List.mem_append.mp h with h | h
          · exact isCreateBlobB_le_isWriteB c (hq2 c h).1
          rcases List.mem_append.mp h with h | h
          · obtain ⟨r2, p2, rfl⟩ := hsh3 c h
            rfl
          rcases List.mem_append.mp h with h | h
          · simp only [List.mem_singleton] at h
            subst h
            rfl
          · exact (hnb5 c h).1
        have hro5 : ∀ C, refOk C (t1 ++ (t2 ++ (t3 ++
            ([ApiCall.getTree sv.1 sv.2.defaultBranch] ++ t5)))) = true :=
          refOk_append_all _ _ (quiet_refOk t1 hq1)
            (refOk_append_all _ _ (quiet_refOk t2 hq2)
              (refOk_append_all _ _ (lb_shape_refOk t3 hsh3)
                (refOk_append_all _ _ (singleton_getTree_refOk _ _) hrefok5)))
        cases res5 with
        | error e =>
          refine ⟨Except.error e, s5, ?_, ?_, ?_, ?_, ?_⟩
          · simp only [runServer, mirrorRepoServer, bind_run, heq1, heq2, heq3, heq4, heq5]
          · rw [htr5']
            exact hro5 []
          · rw [htr5']
            have h2 : t1 ++ (t2 ++ (t3 ++ ([ApiCall.getTree sv.1 sv.2.defaultBranch] ++ t5)))
                = (t1 ++ (t2 ++ (t3 ++ [ApiCall.getTree sv.1 sv.2.defaultBranch]))) ++ t5 := by
              simp
            rw [h2]
            exact firstRequires_of_split _ _ _ _ hnw4 hgt4
          · rw [htr5']
            exact firstRequires_of_none _ _ _ hnb5'
          · intro h
            exact absurd h (by simp)
        | ok u5 =>
          have hupd5' : ∃ c ∈ t1 ++ (t2 ++ (t3 ++
              ([ApiCall.getTree sv.1 sv.2.defaultBranch] ++ t5))), isUpdateRefAnyB c = true := by
            obtain ⟨c, hc, hcb⟩ := hupd5 u5 rfl
            exact ⟨c, by simp [hc], hcb⟩
          obtain ⟨res6, s6, t6, heq6, htr6, ⟨lg6, hlg6⟩, hcp6⟩ :=
            serverCopyDefault_spec env sv.1 dv.1 blobs s5
          have htr6' : s6.trace = (t1 ++ (t2 ++ (t3 ++
              ([ApiCall.getTree sv.1 sv.2.defaultBranch] ++ t5)))) ++ t6 := by
            rw [htr6, htr5']
          cases res6 with
          | error e =>
            refine ⟨Except.error e, s6, ?_, ?_, ?_, ?_, ?_⟩
            · simp only [runServer, mirrorRepoServer, bind_run, heq1, heq2, heq3, heq4, heq5,
                heq6]
            · rw [htr6']
              exact refOk_append_all _ _ hro5 (refOk_copy_chunk t6 hcp6) []
            · rw [htr6']
              have h2 : (t1 ++ (t2 ++ (t3 ++ ([ApiCall.getTree sv.1 sv.2.defaultBranch] ++ t5))))
                    ++ t6
                  = (t1 ++ (t2 ++ (t3 ++ [ApiCall.getTree sv.1 sv.2.defaultBranch]))) ++
                    (t5 ++ t6) := by
                simp
              rw [h2]
              exact firstRequires_of_split _ _ _ _ hnw4 hgt4
            · rw [htr6']
              exact firstRequires_of_split _ _ _ _ hnb5' hupd5'
            · intro h
              exact absurd h (by simp)
          | ok entries =>
            obtain ⟨res7, s7, t7, heq7, htr7, ⟨lg7, hlg7⟩, hrefok7⟩ :=
              serverCommitDefault_spec dv.1 dv.2.defaultBranch sv.2.fullName entries s6
            have htr7' : s7.trace = ((t1 ++ (t2 ++ (t3 ++
                ([ApiCall.getTree sv.1 sv.2.defaultBranch] ++ t5)))) ++ t6) ++ t7 := by
              rw [htr7, htr6']
            cases res7 with
            | error e =>
              refine ⟨Except.error e, s7, ?_, ?_, ?_, ?_, ?_⟩
              · simp only [runServer, mirrorRepoServer, bind_run, heq1, heq2, heq3, heq4,
                  heq5, heq6, heq7]
              · rw [htr7']
                exact refOk_append_all _ _
                  (refOk_append_all _ _ hro5 (refOk_copy_chunk t6 hcp6)) hrefok7 []
              · rw [htr7']
                have h2 : (((t1 ++ (t2 ++ (t3 ++
                      ([ApiCall.getTree sv.1 sv.2.defaultBranch] ++ t5)))) ++ t6) ++ t7)
                    = (t1 ++ (t2 ++ (t3 ++ [ApiCall.getTree sv.1 sv.2.defaultBranch]))) ++
                      (t5 ++ (t6 ++ t7)) := by
                  simp
                rw [h2]
                exact firstRequires_of_split _ _ _ _ hnw4 hgt4
              · rw [htr7']
                have h2 : (((t1 ++ (t2 ++ (t3 ++
                      ([ApiCall.getTree sv.1 sv.2.defaultBranch] ++ t5)))) ++ t6) ++ t7)
                    = (t1 ++ (t2 ++ (t3 ++
                      ([ApiCall.getTree sv.1 sv.2.defaultBranch] ++ t5)))) ++ (t6 ++ t7) := by
                  simp
                rw [h2]
                exact firstRequires_of_split _ _ _ _ hnb5' hupd5'
              · intro h
                exact absurd h (by simp)
            | ok newSha =>
              obtain ⟨s8, t8, lg8, heq8, htr8, hlg8, hrefok8⟩ :=
                serverReplicate_spec env sv.1 dv.1 sv.2.defaultBranch newSha bs s7
              have htr8' : s8.trace = (((t1 ++ (t2 ++ (t3 ++
                  ([ApiCall.getTree sv.1 sv.2.defaultBranch] ++ t5)))) ++ t6) ++ t7) ++ t8 := by
                rw [htr8, htr7']
              refine ⟨Except.ok (), { s8 with logs := s8.logs ++
                  ["✅ Mirror concluído com sucesso!",
                   "📊 Resumo: " ++ toString blobs.length ++ " arquivos, " ++
                     toString bs.length ++ " branch(es) copiado(s)"] }, ?_, ?_, ?_, ?_, ?_⟩
              · simp only [runServer, mirrorRepoServer, bind_run, heq1, heq2, heq3, heq4,
                  heq5, heq6, heq7, heq8, logM]
                simp
              · show refOk [] s8.trace = true
                rw [htr8']
                exact refOk_append_all _ _
                  (refOk_append_all _ _
                    (refOk_append_all _ _ hro5 (refOk_copy_chunk t6 hcp6)) hrefok7)
                  hrefok8 []
              · show firstRequires _ _ s8.trace
                rw [htr8']
                have h2 : ((((t1 ++ (t2 ++ (t3 ++
                      ([ApiCall.getTree sv.1 sv.2.defaultBranch] ++ t5)))) ++ t6) ++ t7) ++ t8)
                    = (t1 ++ (t2 ++ (t3 ++ [ApiCall.getTree sv.1 sv.2.defaultBranch]))) ++
                      (t5 ++ (t6 ++ (t7 ++ t8))) := by
                  simp
                rw [h2]
                exact firstRequires_of_split _ _ _ _ hnw4 hgt4
              · show firstRequires _ _ s8.trace
                rw [htr8']
                have h2 : ((((t1 ++ (t2 ++ (t3 ++
                      ([ApiCall.getTree sv.1 sv.2.defaultBranch] ++ t5)))) ++ t6) ++ t7) ++ t8)
                    = (t1 ++ (t2 ++ (t3 ++
                      ([ApiCall.getTree sv.1 sv.2.defaultBranch] ++ t5)))) ++
                      (t6 ++ (t7 ++ t8)) := by
                  simp
                rw [h2]
                exact firstRequires_of_split _ _ _ _ hnb5' hupd5'
              · intro _
                refine ⟨blobs.length, bs.length, ?_⟩
                show (s8.logs ++ _).getLast? = _
                exact getLast?_append_pair s8.logs _ _
theorem getRefM_spec (r : RepoId) (b : String) (s : MSt) :
    ∃ res s1, getRefM r b s = (res, s1) ∧
      s1.trace = s.trace ++ [ApiCall.getRef r b] ∧ s1.logs = s.logs ∧
      s1.fresh = s.fresh ∧ s1.refs = s.refs := by
  cases hl : lookupA s.refs (r, b) with
  | none =>
    refine ⟨Except.error ("GitHub API 404: ref " ++ b),
      MSt.mk s.logs (s.trace ++ [ApiCall.getRef r b]) s.fresh s.refs, ?_, rfl, rfl, rfl, rfl⟩
    simp [getRefM, bind_run, recordM, readState, mthrow, pure_run, hl]
  | some sha =>
    refine ⟨Except.ok sha,
      MSt.mk s.logs (s.trace ++ [ApiCall.getRef r b]) s.fresh s.refs, ?_, rfl, rfl, rfl, rfl⟩
    simp [getRefM, bind_run, recordM, readState, mthrow, pure_run, hl]

theorem createTreeM_spec (r : RepoId) (es : List NewTreeEntry) (s : MSt) :
    ∃ sha s1, createTreeM r es s = (Except.ok sha, s1) ∧
      s1.trace = s.trace ++ [ApiCall.createTree r es sha] ∧
      s1.logs = s.logs ∧ s1.refs = s.refs :=
  ⟨"tree" ++ toString s.fresh,
    MSt.mk s.logs (s.trace ++ [ApiCall.createTree r es ("tree" ++ toString s.fresh)])
      (s.fresh + 1) s.refs,
    rfl, rfl, rfl, rfl⟩

theorem createCommitM_spec (r : RepoId) (m tr : String) (ps : List String) (s : MSt) :
    ∃ sha s1, createCommitM r m tr ps s = (Except.ok sha, s1) ∧
      s1.trace = s.trace ++ [ApiCall.createCommit r m tr ps sha] ∧
      s1.logs = s.logs ∧ s1.refs = s.refs :=
  ⟨"commit" ++ toString s.fresh,
    MSt.mk s.logs (s.trace ++ [ApiCall.createCommit r m tr ps ("commit" ++ toString s.fresh)])
      (s.fresh + 1) s.refs,
    rfl, rfl, rfl, rfl⟩

theorem updateRefM_spec (r : RepoId) (b sha : String) (s : MSt) :
    ∃ s1, updateRefM r b sha s = (Except.ok (), s1) ∧
      s1.trace = s.trace ++ [ApiCall.updateRef r b sha] ∧ s1.logs = s.logs :=
  ⟨MSt.mk s.logs (s.trace ++ [ApiCall.updateRef r b sha]) s.fresh (((r, b), sha) :: s.refs),
    rfl, rfl, rfl⟩

/-- The whole client run, for any environment and inputs: its trace is
ref-safe, every source tree listing is preceded by a ref force-update (the
wipe), and every blob upload is preceded by a ref force-update. -/
theorem clientRun_master (env : Env) (su du : String) :
    ∃ res st, runClient env su du = (res, st) ∧
      refOk [] st.trace = true ∧
      firstRequires isGetTreeB isUpdateRefAnyB st.trace ∧
      firstRequires isCreateBlobB isUpdateRefAnyB st.trace := by
  obtain ⟨res1, s1, t1, heq1, htr1, hlg1, hq1⟩ := validateRepoM_spec env su
    (MSt.mk ((initSt env).logs ++ ["Validando repositório de origem..."])
      (initSt env).trace (initSt env).fresh (initSt env).refs)
  have htr1' : s1.trace = t1 := by simpa [initSt] using htr1
  cases res1 with
  | error e =>
    refine ⟨Except.error e, s1, ?_, ?_, ?_, ?_⟩
    · simp [runClient, cloneRepoClient, bind_run, logM, mthrow, pure_run, heq1]
    · rw [htr1']
      exact quiet_refOk t1 hq1 []
    · exact firstRequires_of_none _ _ _ (fun c hc => (hq1 c (htr1' ▸ hc)).2.2)
    · exact firstRequires_of_none _ _ _
        (fun c hc => isCreateBlobB_le_isWriteB c (hq1 c (htr1' ▸ hc)).1)
  | ok sv =>
    cases hpriv : sv.2.isPrivate with
    | true =>
      refine ⟨Except.error "O repositório de origem deve ser público.", s1, ?_, ?_, ?_, ?_⟩
      · simp [runClient, cloneRepoClient, bind_run, logM, mthrow, pure_run, heq1, hpriv]
      · rw [htr1']
        exact quiet_refOk t1 hq1 []
      · exact firstRequires_of_none _ _ _ (fun c hc => (hq1 c (htr1' ▸ hc)).2.2)
      · exact firstRequires_of_none _ _ _
          (fun c hc => isCreateBlobB_le_isWriteB c (hq1 c (htr1' ▸ hc)).1)
    | false =>
      obtain ⟨res2, s2, t2, heq2, htr2, hlg2, hq2⟩ := validateRepoM_spec env du
        (MSt.mk (s1.logs ++
            ["Origem: " ++ sv.2.fullName ++ " (branch: " ++ sv.2.defaultBranch ++ ") ✓",
             "Validando repositório de destino..."])
          s1.trace s1.fresh s1.refs)
      have htr2' : s2.trace = t1 ++ t2 := by
        rw [htr2]
        simp only [htr1']
      have hnogt2 : ∀ c ∈ t1 ++ t2, isGetTreeB c = false := by
        intro c hc
        rcases List.mem_append.mp hc with h | h
        exacts [(hq1 c h).2.2, (hq2 c h).2.2]
      have hnocb2 : ∀ c ∈ t1 ++ t2, isCreateBlobB c = false := by
        intro c hc
        rcases List.mem_append.mp hc with h | h
        exacts [isCreateBlobB_le_isWriteB c (hq1 c h).1,
          isCreateBlobB_le_isWriteB c (hq2 c h).1]
      cases res2 with
      | error e =>
        refine ⟨Except.error e, s2, ?_, ?_, ?_, ?_⟩
        · simp [runClient, cloneRepoClient, bind_run, logM, mthrow, pure_run, heq1,
            hpriv, heq2]
        · rw [htr2']
          exact refOk_append_all t1 t2 (quiet_refOk t1 hq1) (quiet_refOk t2 hq2) []
        · rw [htr2']
          exact firstRequires_of_none _ _ _ hnogt2
        · rw [htr2']
          exact firstRequires_of_none _ _ _ hnocb2
      | ok dv =>
        cases hpriv2 : dv.2.isPrivate with
        | true =>
          refine ⟨Except.error "O repositório de destino deve ser público.", s2,
            ?_, ?_, ?_, ?_⟩
          · simp [runClient, cloneRepoClient, bind_run, logM, mthrow, pure_run, heq1,
              hpriv, heq2, hpriv2]
          · rw [htr2']
            exact refOk_append_all t1 t2 (quiet_refOk t1 hq1) (quiet_refOk t2 hq2) []
          · rw [htr2']
            exact firstRequires_of_none _ _ _ hnogt2
          · rw [htr2']
            exact firstRequires_of_none _ _ _ hnocb2
        | false =>
          obtain ⟨res5, s5, t5, heq5, htr5, ⟨lg5, hlg5⟩, hrefok5, hnb5, hupd5⟩ :=
            deleteAllContents_spec dv.1 dv.2.defaultBranch
            (MSt.mk (s2.logs ++
                ["Destino: " ++ dv.2.fullName ++ " (branch: " ++ dv.2.defaultBranch ++ ") ✓",
                 "Limpando repositório de destino..."])
              s2.trace s2.fresh s2.refs)
          have htr5' : s5.trace = t1 ++ (t2 ++ t5) := by
            rw [htr5]
            simp only [htr2']
            simp
          have hnogt5 : ∀ c ∈ t1 ++ (t2 ++ t5), isGetTreeB c = false := by
            intro c hc
            rcases List.mem_append.mp hc with h | h
            · exact (hq1 c h).2.2
            rcases List.mem_append.mp h with h | h
            · exact (hq2 c h).2.2
            · exact (hnb5 c h).2
          have hnocb5 : ∀ c ∈ t1 ++ (t2 ++ t5), isCreateBlobB c = false := by
            intro c hc
            rcases List.mem_append.mp hc with h | h
            · exact isCreateBlobB_le_isWriteB c (hq1 c h).1
            rcases List.mem_append.mp h with h | h
            · exact isCreateBlobB_le_isWriteB c (hq2 c h).1
            · exact (hnb5 c h).1
          have hro5 : ∀ C, refOk C (t1 ++ (t2 ++ t5)) = true :=
            refOk_append_all _ _ (quiet_refOk t1 hq1)
              (refOk_append_all _ _ (quiet_refOk t2 hq2) hrefok5)
          cases res5 with
          | error e =>
            refine ⟨Except.error e, s5, ?_, ?_, ?_, ?_⟩
            · simp [runClient, cloneRepoClient, bind_run, logM, mthrow, pure_run, heq1,
                hpriv, heq2, hpriv2, heq5]
            · rw [htr5']
              exact hro5 []
            · rw [htr5']
              exact firstRequires_of_none _ _ _ hnogt5
            · rw [htr5']
              exact firstRequires_of_none _ _ _ hnocb5
          | ok u5 =>
            have hupd5' : ∃ c ∈ t1 ++ (t2 ++ t5), isUpdateRefAnyB c = true := by
              obtain ⟨c, hc, hcb⟩ := hupd5 u5 rfl
              exact ⟨c, by simp [hc], hcb⟩
            obtain ⟨res6, s6, heq6, htr6, hlg6⟩ := getTreeM_spec env sv.1 sv.2.defaultBranch
              (MSt.mk (s5.logs ++ ["Obtendo árvore de arquivos da origem..."])
                s5.trace s5.fresh s5.refs)
            have htr6' : s6.trace = (t1 ++ (t2 ++ t5)) ++
                [ApiCall.getTree sv.1 sv.2.defaultBranch] := by
              rw [htr6]
              simp only [htr5']
            cases res6 with
            | error e =>
              refine ⟨Except.error e, s6, ?_, ?_, ?_, ?_⟩
              · simp [runClient, cloneRepoClient, bind_run, logM, mthrow, pure_run, heq1,
                  hpriv, heq2, hpriv2, heq5, heq6]
              · rw [htr6']
                exact refOk_append_all _ _ hro5 (singleton_getTree_refOk _ _) []
              · rw [htr6']
                exact firstRequires_of_split _ _ _ _ hnogt5 hupd5'
              · rw [htr6']
                exact firstRequires_of_split _ _ _ _ hnocb5 hupd5'
            | ok tree =>
              obtain ⟨res7, s7, heq7, hrf7, ⟨t7, htr7, hP7⟩, ⟨lg7, hlg7, hlg7a, hlg7b⟩,
                  hQ7, hS7⟩ :=
                copyBatches_spec (copyBlobClient env sv.1 dv.1)
                  (copyBlobClient_point env sv.1 dv.1) 5 (some clientProgressMsg)
                  (tree.filter (fun e => e.type == "blob"))
                  (MSt.mk (s6.logs ++
                      [toString (tree.filter (fun e => e.type == "blob")).length ++
                        " arquivo(s) encontrado(s)",
                       "Copiando arquivos para o destino..."])
                    s6.trace s6.fresh s6.refs)
              have htr7' : s7.trace = ((t1 ++ (t2 ++ t5)) ++
                  [ApiCall.getTree sv.1 sv.2.defaultBranch]) ++ t7 := by
                rw [htr7]
                simp only [htr6']
              have hsplit7 : ∀ u : List ApiCall, ((t1 ++ (t2 ++ t5)) ++
                    [ApiCall.getTree sv.1 sv.2.defaultBranch]) ++ t7 ++ u
                  = (t1 ++ (t2 ++ t5)) ++
                    ([ApiCall.getTree sv.1 sv.2.defaultBranch] ++ (t7 ++ u)) := by
                intro u
                simp
              cases res7 with
              | error e =>
                refine ⟨Except.error e, s7, ?_, ?_, ?_, ?_⟩
                · simp [runClient, cloneRepoClient, bind_run, logM, mthrow, pure_run, heq1,
                    hpriv, heq2, hpriv2, heq5, heq6, heq7]
                · rw [htr7']
                  exact refOk_append_all _ _
                    (refOk_append_all _ _ hro5 (singleton_getTree_refOk _ _))
                    (refOk_copy_chunk t7 hP7) []
                · rw [htr7']
                  have h2 := hsplit7 []
                  simp only [List.append_nil] at h2
                  rw [h2]
                  exact firstRequires_of_split _ _ _ _ hnogt5 hupd5'
                · rw [htr7']
                  have h2 := hsplit7 []
                  simp only [List.append_nil] at h2
                  rw [h2]
                  exact firstRequires_of_split _ _ _ _ hnocb5 hupd5'
              | ok entries =>
                obtain ⟨res8, s8, heq8, htr8, hlg8, hfr8, hrf8⟩ :=
                  getRefM_spec dv.1 dv.2.defaultBranch
                    (MSt.mk (s7.logs ++ ["Criando nova árvore no destino..."])
                      s7.trace s7.fresh s7.refs)
                have htr8' : s8.trace = (((t1 ++ (t2 ++ t5)) ++
                    [ApiCall.getTree sv.1 sv.2.defaultBranch]) ++ t7) ++
                    [ApiCall.getRef dv.1 dv.2.defaultBranch] := by
                  rw [htr8]
                  simp only [htr7']
                cases res8 with
                | error e =>
                  refine ⟨Except.error e, s8, ?_, ?_, ?_, ?_⟩
                  · simp [runClient, cloneRepoClient, bind_run, logM, mthrow, pure_run, heq1,
                      hpriv, heq2, hpriv2, heq5, heq6, heq7, heq8]
                  · rw [htr8']
                    refine refOk_append_all _ _ (refOk_append_all _ _
                      (refOk_append_all _ _ hro5 (singleton_getTree_refOk _ _))
                      (refOk_copy_chunk t7 hP7)) ?_ []
                    refine refOk_of_no_refTarget _ ?_
                    intro c hc
                    simp only [List.mem_singleton] at hc
                    subst hc
                    rfl
                  · rw [htr8', hsplit7 [ApiCall.getRef dv.1 dv.2.defaultBranch]]
                    exact firstRequires_of_split _ _ _ _ hnogt5 hupd5'
                  · rw [htr8', hsplit7 [ApiCall.getRef dv.1 dv.2.defaultBranch]]
                    exact firstRequires_of_split _ _ _ _ hnocb5 hupd5'
                | ok headSha =>
                  obtain ⟨shaT, s9, heq9, htr9, hlg9, hrf9⟩ := createTreeM_spec dv.1 entries s8
                  obtain ⟨shaC, s10, heq10, htr10, hlg10, hrf10⟩ := createCommitM_spec dv.1
                    ("📦 Mirror de " ++ sv.2.fullName) shaT [headSha]
                    (MSt.mk (s9.logs ++ ["Criando commit no destino..."])
                      s9.trace s9.fresh s9.refs)
                  obtain ⟨s11, heq11, htr11, hlg11⟩ :=
                    updateRefM_spec dv.1 dv.2.defaultBranch shaC s10
                  have htrF : s11.trace = (((t1 ++ (t2 ++ t5)) ++
                      [ApiCall.getTree sv.1 sv.2.defaultBranch]) ++ t7) ++
                      ([ApiCall.getRef dv.1 dv.2.defaultBranch] ++
                       ([ApiCall.createTree dv.1 entries shaT] ++
                        ([ApiCall.createCommit dv.1 ("📦 Mirror de " ++ sv.2.fullName) shaT
                            [headSha] shaC] ++
                         [ApiCall.updateRef dv.1 dv.2.defaultBranch shaC]))) := by
                    rw [htr11, htr10]
                    simp only [htr9, htr8']
                    simp
                  refine ⟨Except.ok (), MSt.mk (s11.logs ++
                      ["✅ Mirror concluído com sucesso!"] ++
                      ["Nota: Este método copia apenas os arquivos do branch padrão. " ++
                        "Para mirror completo " ++
                        "(todos os branches, commits e histórico), use o script Python " ++
                        "disponível na aba " ++ "\"Script Python\"."])
                      s11.trace s11.fresh s11.refs,
                    ?_, ?_, ?_, ?_⟩
                  · simp [runClient, cloneRepoClient, bind_run, logM, mthrow, pure_run, heq1,
                      hpriv, heq2, hpriv2, heq5, heq6, heq7, heq8, heq9, heq10, heq11]
                  · show refOk [] s11.trace = true
                    rw [htrF]
                    refine refOk_append_all _ _ (refOk_append_all _ _
                      (refOk_append_all _ _ hro5 (singleton_getTree_refOk _ _))
                      (refOk_copy_chunk t7 hP7)) ?_ []
                    intro C
                    simp [refOk, refTarget, commitShaOf, List.contains]
                  · show firstRequires isGetTreeB isUpdateRefAnyB s11.trace
                    rw [htrF, hsplit7 ([ApiCall.getRef dv.1 dv.2.defaultBranch] ++
                      ([ApiCall.createTree dv.1 entries shaT] ++
                       ([ApiCall.createCommit dv.1 ("📦 Mirror de " ++ sv.2.fullName) shaT
                           [headSha] shaC] ++
                        [ApiCall.updateRef dv.1 dv.2.defaultBranch shaC])))]
                    exact firstRequires_of_split _ _ _ _ hnogt5 hupd5'
                  · show firstRequires isCreateBlobB isUpdateRefAnyB s11.trace
                    rw [htrF, hsplit7 ([ApiCall.getRef dv.1 dv.2.defaultBranch] ++
                      ([ApiCall.createTree dv.1 entries shaT] ++
                       ([ApiCall.createCommit dv.1 ("📦 Mirror de " ++ sv.2.fullName) shaT
                           [headSha] shaC] ++
                        [ApiCall.updateRef dv.1 dv.2.defaultBranch shaC])))]
                    exact firstRequires_of_split _ _ _ _ hnocb5 hupd5'

theorem takeWhile_append_all {α : Type} (p : α → Bool) (xs ys : List α)
    (h : ∀ c ∈ xs, p c = true) :
    (xs ++ ys).takeWhile p = xs ++ ys.takeWhile p := by
  induction xs with
  | nil => simp
  | cons a as ih =>
    rw [List.cons_append, List.takeWhile_cons_of_pos (h a (List.mem_cons_self a as)),
      ih (fun c hc => h c (List.mem_cons_of_mem a hc)), List.cons_append]

theorem dropWhile_append_all {α : Type} (p : α → Bool) (xs ys : List α)
    (h : ∀ c ∈ xs, p c = true) :
    (xs ++ ys).dropWhile p = ys.dropWhile p := by
  induction xs with
  | nil => simp
  | cons a as ih =>
    rw [List.cons_append, List.dropWhile_cons_of_pos (h a (List.mem_cons_self a as))]
    exact ih (fun c hc => h c (List.mem_cons_of_mem a hc))

theorem takeWhile_all {α : Type} (p : α → Bool) (xs : List α)
    (h : ∀ c ∈ xs, p c = true) : xs.takeWhile p = xs := by
  induction xs with
  | nil => simp
  | cons a as ih =>
    rw [List.takeWhile_cons_of_pos (h a (List.mem_cons_self a as)),
      ih (fun c hc => h c (List.mem_cons_of_mem a hc))]

theorem isPrefixOf_append_self {α : Type} [BEq α] [LawfulBEq α] (xs ys : List α) :
    xs.isPrefixOf (xs ++ ys) = true := by
  induction xs with
  | nil => simp [List.isPrefixOf]
  | cons a as ih => simp [List.isPrefixOf, ih]

theorem matchHostAt_exact (o n : String)
    (ho : o.data ≠ []) (hn : n.data ≠ [])
    (ho2 : ∀ c ∈ o.data, c ≠ '/') (hn2 : ∀ c ∈ n.data, c ≠ '/') :
    matchHostAt (hostPat ++ (o.data ++ '/' :: n.data)) = some (o, n) := by
  have hpre := isPrefixOf_append_self hostPat (o.data ++ '/' :: n.data)
  have hX : (hostPat ++ (o.data ++ '/' :: n.data)).drop hostPat.length
      = o.data ++ '/' :: n.data := List.drop_left _ _
  have hall : ∀ c ∈ o.data, (!decide (c = '/')) = true := by
    intro c hc
    simp [ho2 c hc]
  have hall2 : ∀ c ∈ n.data, (!decide (c = '/')) = true := by
    intro c hc
    simp [hn2 c hc]
  have htake : List.takeWhile (fun c => !decide (c = '/')) (o.data ++ '/' :: n.data)
      = o.data := by
    rw [takeWhile_append_all _ _ _ hall]
    simp
  have hdrop : List.dropWhile (fun c => !decide (c = '/')) (o.data ++ '/' :: n.data)
      = '/' :: n.data := by
    rw [dropWhile_append_all _ _ _ hall]
    simp
  have htake2 : List.takeWhile (fun c => !decide (c = '/')) n.data = n.data :=
    takeWhile_all _ _ hall2
  simp [matchHostAt, hpre, hX, htake, hdrop, htake2, hall, hall2, ho, hn]

theorem findHostMatch_cons_no (c : Char) (rest : List Char)
    (h : matchHostAt (c :: rest) = none) :
    findHostMatch (c :: rest) = findHostMatch rest := by
  simp only [findHostMatch, h]

theorem findHostMatch_at_host (X : List Char) (r : String × String)
    (h : matchHostAt (hostPat ++ X) = some r) :
    findHostMatch (hostPat ++ X) = some r := by
  have e : hostPat ++ X = 'g' :: ("ithub.com/".data ++ X) := rfl
  rw [e] at h ⊢
  simp only [findHostMatch, h]

theorem matchHostAt_mismatch (c : Char) (rest : List Char) (h : (('g' : Char) == c) = false) :
    matchHostAt (c :: rest) = none := by
  have e : hostPat = 'g' :: "ithub.com/".data := rfl
  simp [matchHostAt, e, List.isPrefixOf, h]

theorem findHostMatch_https (X : List Char) (r : String × String)
    (h : matchHostAt (hostPat ++ X) = some r) :
    findHostMatch ("https://".data ++ (hostPat ++ X)) = some r := by
  have e1 : "https://".data ++ (hostPat ++ X)
      = 'h' :: 't' :: 't' :: 'p' :: 's' :: ':' :: '/' :: '/' :: (hostPat ++ X) := rfl
  rw [e1, findHostMatch_cons_no _ _ (matchHostAt_mismatch _ _ (by decide)),
      findHostMatch_cons_no _ _ (matchHostAt_mismatch _ _ (by decide)),
      findHostMatch_cons_no _ _ (matchHostAt_mismatch _ _ (by decide)),
      findHostMatch_cons_no _ _ (matchHostAt_mismatch _ _ (by decide)),
      findHostMatch_cons_no _ _ (matchHostAt_mismatch _ _ (by decide)),
      findHostMatch_cons_no _ _ (matchHostAt_mismatch _ _ (by decide)),
      findHostMatch_cons_no _ _ (matchHostAt_mismatch _ _ (by decide)),
      findHostMatch_cons_no _ _ (matchHostAt_mismatch _ _ (by decide))]
  exact findHostMatch_at_host X r h

theorem parseRepoUrl_roundtrip (o n : String)
    (ho : o.data ≠ []) (hn : n.data ≠ [])
    (ho2 : ∀ c ∈ o.data, c ≠ '/') (hn2 : ∀ c ∈ n.data, c ≠ '/')
    (hg : List.isSuffixOf ".git".data
      ("https://github.com/" ++ o ++ "/" ++ n).data = false) :
    parseRepoUrl ("https://github.com/" ++ o ++ "/" ++ n) = some (o, n) := by
  have hd : ("https://github.com/" ++ o ++ "/" ++ n).data
      = "https://".data ++ (hostPat ++ (o.data ++ '/' :: n.data)) := by
    have e0 : ("https://github.com/" ++ o ++ "/" ++ n).data
        = (("https://github.com/".data ++ o.data) ++ "/".data) ++ n.data := by
      simp only [String.data_append]
    have e1 : "https://github.com/".data = "https://".data ++ hostPat := by decide
    have e2 : "/".data = ['/'] := by decide
    rw [e0, e1, e2]
    simp
  have hg' : List.isSuffixOf ".git".data
      ("https://".data ++ (hostPat ++ (o.data ++ '/' :: n.data))) = false := hd ▸ hg
  have hneg : ¬ (List.isSuffixOf ".git".data
      ("https://".data ++ (hostPat ++ (o.data ++ '/' :: n.data))) = true) := by
    rw [hg']
    decide
  rw [parseRepoUrl, hd, dropGitSuffix, if_neg hneg]
  exact findHostMatch_https _ _ (matchHostAt_exact o n ho hn ho2 hn2)

theorem runServer_parse_fail (env : Env) (su du : String) (h : parseRepoUrl su = none) :
    ∃ st, runServer env su du = (Except.error ("URL inválida: " ++ su), st) ∧
      st.trace = [] := by
  refine ⟨MSt.mk ["🔍 Validando repositório de origem..."] [] 0 env.initRefs, ?_, rfl⟩
  have he := serverValidateSource_run env su (initSt env)
  simp only [h, initSt] at he
  simp [runServer, mirrorRepoServer, bind_run, he, initSt]

/-! Reference environments used by the concrete claims: the spec's reference
scenario (two files on the default branch, one on a secondary branch), a
private source, a missing destination, a source entry with an executable
mode, and the three-branch isolation scenario with a broken middle branch. -/

def srcId : RepoId := ⟨"u", "src"⟩

def dstId : RepoId := ⟨"u", "dst"⟩

def suRef : String := "https://github.com/u/src"

def duRef : String := "https://github.com/u/dst"

def envRef : Env :=
  { repos := [(srcId, ⟨"u/src", false, "main"⟩), (dstId, ⟨"u/dst", false, "main"⟩)]
    branches := [⟨"main", "shaM"⟩, ⟨"dev", "shaD"⟩]
    trees := [((srcId, "main"), [⟨"a.txt", "sa", "blob", none⟩, ⟨"b.txt", "sb", "blob", none⟩]),
              ((srcId, "shaD"), [⟨"c.txt", "sc", "blob", none⟩])]
    blobs := [((srcId, "sa"), ⟨"A", "utf-8"⟩), ((srcId, "sb"), ⟨"B", "utf-8"⟩),
              ((srcId, "sc"), ⟨"C", "utf-8"⟩)]
    initRefs := [((dstId, "main"), "old")] }

def envPriv : Env :=
  { repos := [(srcId, ⟨"u/src", true, "main"⟩), (dstId, ⟨"u/dst", false, "main"⟩)]
    branches := [⟨"main", "shaM"⟩]
    trees := [((srcId, "main"), [⟨"a.txt", "sa", "blob", none⟩])]
    blobs := [((srcId, "sa"), ⟨"A", "utf-8"⟩)]
    initRefs := [((dstId, "main"), "old")] }

def envNoDest : Env :=
  { repos := [(srcId, ⟨"u/src", false, "main"⟩)]
    branches := [⟨"main", "shaM"⟩]
    trees := [((srcId, "main"), [⟨"a.txt", "sa", "blob", none⟩])]
    blobs := [((srcId, "sa"), ⟨"A", "utf-8"⟩)]
    initRefs := [((dstId, "main"), "old")] }

def envMode : Env :=
  { repos := [(srcId, ⟨"u/src", false, "main"⟩), (dstId, ⟨"u/dst", false, "main"⟩)]
    branches := [⟨"main", "shaM"⟩]
    trees := [((srcId, "main"), [⟨"x.sh", "sx", "blob", some "100755"⟩])]
    blobs := [((srcId, "sx"), ⟨"X", "utf-8"⟩)]
    initRefs := [((dstId, "main"), "old")] }

def envIso : Env :=
  { repos := [(srcId, ⟨"u/src", false, "main"⟩), (dstId, ⟨"u/dst", false, "main"⟩)]
    branches := [⟨"main", "shaM"⟩, ⟨"b2", "sha2"⟩, ⟨"b3", "sha3"⟩]
    trees := [((srcId, "main"), [⟨"a.txt", "sa", "blob", none⟩]),
              ((srcId, "sha3"), [⟨"c.txt", "sc", "blob", none⟩])]
    blobs := [((srcId, "sa"), ⟨"A", "utf-8"⟩), ((srcId, "sc"), ⟨"C", "utf-8"⟩)]
    initRefs := [((dstId, "main"), "old")] }

def lMode : List SourceTreeEntry := [⟨"x.sh", "sx", "blob", some "100755"⟩]

theorem sum_map_length_flatten {α : Type} :
    ∀ ws : List (List α), (ws.map List.length).sum = ws.flatten.length := by
  intro ws
  induction ws with
  | nil => rfl
  | cons w rest ih =>
    show (w.length :: rest.map List.length).sum = (w ++ rest.flatten).length
    rw [List.sum_cons, List.length_append, ih]

theorem copyBatches_progress {Q : SourceTreeEntry → NewTreeEntry → Prop}
    {S : SourceTreeEntry → Prop} (f : SourceTreeEntry → M NewTreeEntry)
    (hf : PointSpec f Q S) (w : Nat) (hw : 0 < w) (mk : Nat → Nat → String)
    (l : List SourceTreeEntry) (s : MSt) :
    ∃ res s1 lg, copyBatches w f (some mk) l s = (res, s1) ∧
      s1.logs = s.logs ++ lg ∧
      ∀ bs, res = Except.ok bs →
        lg.length = (l.length + w - 1) / w ∧
        (l ≠ [] → lg.getLast? = some (mk l.length l.length)) := by
  obtain ⟨res, s1, heq, _, _, ⟨lg, hlg, _, hlgok⟩, _, _⟩ :=
    copyBatches_spec f hf w (some mk) l s
  refine ⟨res, s1, lg, heq, hlg, ?_⟩
  intro bs hok
  have hl := hlgok bs hok mk rfl
  constructor
  · rw [hl, progressList_length, windows_length w hw]
  · intro hne
    have hwne : windows w l ≠ [] := by
      intro h0
      apply hne
      have hf2 := windows_flatten w l
      rw [h0] at hf2
      exact hf2.symm
    rw [hl, progressList_getLast mk l.length (windows w l) 0 hwne]
    have hsum : ((windows w l).map List.length).sum = l.length := by
      rw [sum_map_length_flatten, windows_flatten]
    rw [hsum, Nat.zero_add]

/-- C9: in every run, server-side and client-side, each destination ref
force-update targets a commit whose creation appears earlier in the trace, so
at every intermediate point the ref points at its prior value or at an
already-created commit.  `refOk []` walks the trace accumulating created
commit ids and checks every `updateRef` target against them. -/
theorem C9_ref_update_safety (env : Env) (su du : String) :
    (∃ res st, runServer env su du = (res, st) ∧ refOk [] st.trace = true) ∧
    (∃ res st, runClient env su du = (res, st) ∧ refOk [] st.trace = true) := by
  constructor
  · obtain ⟨res, st, heq, hro, _, _, _⟩ := serverRun_master env su du
    exact ⟨res, st, heq, hro⟩
  · obtain ⟨res, st, heq, hro, _, _⟩ := clientRun_master env su du
    exact ⟨res, st, heq, hro⟩

/-- C3 (amended): the order that actually holds.  On the server path every
write (including the wipe) comes after the source tree listing — the fetch
precedes the wipe, contrary to the spec's state order; on the client path the
wipe's ref force-update precedes the tree listing, as the spec says. -/
theorem C3_phase_order_amended (env : Env) (su du : String) :
    (∃ res st, runServer env su du = (res, st) ∧
      firstRequires isWriteB isGetTreeB st.trace) ∧
    (∃ res st, runClient env su du = (res, st) ∧
      firstRequires isGetTreeB isUpdateRefAnyB st.trace) := by
  constructor
  · obtain ⟨res, st, heq, _, hfr, _, _⟩ := serverRun_master env su du
    exact ⟨res, st, heq, hfr⟩
  · obtain ⟨res, st, heq, _, hfr, _⟩ := clientRun_master env su du
    exact ⟨res, st, heq, hfr⟩

/-- C4 (amended): every successful server run ends with a summary line, whose
file count is the default-branch blob count and whose branch count is the
total number of enumerated branches — not the blob total across all copied
branches. -/
theorem C4_summary_amended (env : Env) (su du : String) :
    ∃ res st, runServer env su du = (res, st) ∧
      (res = Except.ok () → ∃ k b : Nat, st.logs.getLast? =
        some ("📊 Resumo: " ++ toString k ++ " arquivos, " ++ toString b ++
          " branch(es) copiado(s)")) := by
  obtain ⟨res, st, heq, _, _, _, hsum⟩ := serverRun_master env su du
  exact ⟨res, st, heq, hsum⟩

/-- C3 (counterexample): on the reference scenario the server lists the source
tree (trace position 3) strictly before the wipe creates the empty tree
(trace position 5), so WipingDestination does not complete before
FetchingSourceTree begins. -/
theorem C3_fetch_before_wipe_cex :
    (runServer envRef suRef duRef).2.trace[3]? = some (ApiCall.getTree srcId "main") ∧
    (runServer envRef suRef duRef).2.trace[5]? = some (ApiCall.createTree dstId [] "tree0") ∧
    (runServer envRef suRef duRef).1 = Except.ok () := by
  refine ⟨?_, ?_, ?_⟩ <;>
    simp [runServer, mirrorRepoServer, serverValidateSource, serverValidateDest,
      serverListBranches, serverFetchTree, serverWipe, serverCopyDefault, serverCommitDefault,
      serverReplicate, replicateBranches, replicateOne, copyBatches, copyWindows, mapMList,
      collectPages, windows, windowsAux, copyBlobServer, getRepoM, getTreeM, getBlobM,
      createBlobM, createTreeM, createCommitM, getRefM, updateRefM, createRefM, bind_run,
      logM, recordM, freshShaM, readState, modifySt, mthrow, mcatch, mret, lookupA, initSt,
      parseRepoUrl, dropGitSuffix, findHostMatch, matchHostAt, hostPat, srcId, dstId, envRef,
      suRef, duRef, serverProgressMsg, pure, Pure.pure] <;>
  decide

/-- C4 (counterexample): on the spec's reference scenario (two files on the
default branch, one on the secondary branch `dev`) the run succeeds, three
blobs are uploaded to the destination, yet the summary line reports 2 files —
the default-branch count — not the claimed total of 3. -/
theorem C4_summary_counts_cex :
    (runServer envRef suRef duRef).1 = Except.ok () ∧
    (runServer envRef suRef duRef).2.logs.getLast? =
      some "📊 Resumo: 2 arquivos, 2 branch(es) copiado(s)" ∧
    ApiCall.createBlob dstId "A" "utf-8" "blob2" ∈ (runServer envRef suRef duRef).2.trace ∧
    ApiCall.createBlob dstId "B" "utf-8" "blob3" ∈ (runServer envRef suRef duRef).2.trace ∧
    ApiCall.createBlob dstId "C" "utf-8" "blob6" ∈ (runServer envRef suRef duRef).2.trace := by
  refine ⟨?_, ?_, ?_, ?_, ?_⟩ <;>
    simp [runServer, mirrorRepoServer, serverValidateSource, serverValidateDest,
      serverListBranches, serverFetchTree, serverWipe, serverCopyDefault, serverCommitDefault,
      serverReplicate, replicateBranches, replicateOne, copyBatches, copyWindows, mapMList,
      collectPages, windows, windowsAux, copyBlobServer, getRepoM, getTreeM, getBlobM,
      createBlobM, createTreeM, createCommitM, getRefM, updateRefM, createRefM, bind_run,
      logM, recordM, freshShaM, readState, modifySt, mthrow, mcatch, mret, lookupA, initSt,
      parseRepoUrl, dropGitSuffix, findHostMatch, matchHostAt, hostPat, srcId, dstId, envRef,
      suRef, duRef, serverProgressMsg, pure, Pure.pure] <;>
  decide

/-- C1: the visibility gate exists only on the unused client path.  With a
private source repository the server run succeeds and still issues the
destructive calls — the wipe's ref force-update and a blob upload — while the
client path fails with the visibility error before any write. -/
theorem C1_visibility_gate_missing_on_server :
    lookupA envPriv.repos srcId = some ⟨"u/src", true, "main"⟩ ∧
    (runServer envPriv suRef duRef).1 = Except.ok () ∧
    ApiCall.updateRef dstId "main" "commit1" ∈ (runServer envPriv suRef duRef).2.trace ∧
    ApiCall.createBlob dstId "A" "utf-8" "blob2" ∈ (runServer envPriv suRef duRef).2.trace ∧
    (∃ st, runClient envPriv suRef duRef =
      (Except.error "O repositório de origem deve ser público.", st) ∧
      ∀ c ∈ st.trace, isWriteB c = false) := by
  refine ⟨by decide, ?_, ?_, ?_,
    ⟨MSt.mk ["Validando repositório de origem..."] [ApiCall.getRepo srcId] 0
      [((dstId, "main"), "old")], ?_, by decide⟩⟩ <;>
    simp [runServer, mirrorRepoServer, serverValidateSource, serverValidateDest,
      serverListBranches, serverFetchTree, serverWipe, serverCopyDefault, serverCommitDefault,
      serverReplicate, replicateBranches, replicateOne, copyBatches, copyWindows, mapMList,
      collectPages, windows, windowsAux, copyBlobServer, getRepoM, getTreeM, getBlobM,
      createBlobM, createTreeM, createCommitM, getRefM, updateRefM, createRefM, bind_run,
      logM, recordM, freshShaM, readState, modifySt, mthrow, mcatch, mret, lookupA, initSt,
      parseRepoUrl, dropGitSuffix, findHostMatch, matchHostAt, hostPat, srcId, dstId, envPriv,
      suRef, duRef, serverProgressMsg, runClient, cloneRepoClient, validateRepoM,
      deleteAllContents, copyBlobClient, clientProgressMsg, pure, Pure.pure] <;>
  decide

/-- C2 (counterexample): when the destination repository lookup fails, three
log lines were already emitted, but the response delivered to the caller is
only the error message: the replayed stream is the start entry plus one error
entry, with none of the three pre-abort log lines. -/
theorem C2_serve_drops_logs_cex :
    (runServer envNoDest suRef duRef).2.logs =
      ["🔍 Validando repositório de origem...", "✅ Origem: u/src (branch: main, público)",
       "🔍 Validando repositório de destino..."] ∧
    serveModel envNoDest suRef duRef = ServeResult.err "GitHub API 404: repo u/dst" ∧
    handleClone (serveModel envNoDest suRef duRef) =
      [("Iniciando mirror via servidor...", LogType.info),
       ("GitHub API 404: repo u/dst", LogType.error)] := by
  refine ⟨?_, ?_, ?_⟩ <;>
    simp [runServer, mirrorRepoServer, serverValidateSource, serverValidateDest,
      serverListBranches, serverFetchTree, serverWipe, serverCopyDefault, serverCommitDefault,
      serverReplicate, replicateBranches, replicateOne, copyBatches, copyWindows, mapMList,
      collectPages, windows, windowsAux, copyBlobServer, getRepoM, getTreeM, getBlobM,
      createBlobM, createTreeM, createCommitM, getRefM, updateRefM, createRefM, bind_run,
      logM, recordM, freshShaM, readState, modifySt, mthrow, mcatch, mret, lookupA, initSt,
      parseRepoUrl, dropGitSuffix, findHostMatch, matchHostAt, hostPat, srcId, dstId,
      envNoDest, suRef, duRef, serverProgressMsg, serveModel, handleClone,
      mirrorRepoClientSide, startEntry, parseIcon, pure, Pure.pure] <;>
  decide

/-- C2 (amended): every aborted server run surfaces its message as the run's
terminal failure and the caller-visible stream ends with one error-severity
entry — but it carries only the message, not the log entries emitted before
the abort. -/
theorem C2_abort_surfaces_error (env : Env) (su du : String) (e : String) (st : MSt)
    (h : runServer env su du = (Except.error e, st)) :
    serveModel env su du = ServeResult.err e ∧
    handleClone (serveModel env su du) = [startEntry, (e, LogType.error)] ∧
    (handleClone (serveModel env su du)).getLast? = some (e, LogType.error) := by
  have hs : serveModel env su du = ServeResult.err e := by
    simp [serveModel, h]
  refine ⟨hs, ?_, ?_⟩ <;> simp [hs, handleClone, mirrorRepoClientSide, startEntry]

theorem C2_abort_surfaces_error_witness :
    serveModel envNoDest suRef duRef = ServeResult.err "GitHub API 404: repo u/dst" ∧
    handleClone (serveModel envNoDest suRef duRef) =
      [startEntry, ("GitHub API 404: repo u/dst", LogType.error)] ∧
    (handleClone (serveModel envNoDest suRef duRef)).getLast? =
      some ("GitHub API 404: repo u/dst", LogType.error) :=
  C2_abort_surfaces_error envNoDest suRef duRef "GitHub API 404: repo u/dst"
    (MSt.mk ["🔍 Validando repositório de origem...",
       "✅ Origem: u/src (branch: main, público)",
       "🔍 Validando repositório de destino..."]
      [ApiCall.getRepo srcId, ApiCall.getRepo dstId] 0 [((dstId, "main"), "old")])
    (by
      simp [runServer, mirrorRepoServer, serverValidateSource, serverValidateDest,
        serverListBranches, serverFetchTree, serverWipe, serverCopyDefault,
        serverCommitDefault, serverReplicate, replicateBranches, replicateOne, copyBatches,
        copyWindows, mapMList, collectPages, windows, windowsAux, copyBlobServer, getRepoM,
        getTreeM, getBlobM, createBlobM, createTreeM, createCommitM, getRefM, updateRefM,
        createRefM, bind_run, logM, recordM, freshShaM, readState, modifySt, mthrow, mcatch,
        mret, lookupA, initSt, parseRepoUrl, dropGitSuffix, findHostMatch, matchHostAt,
        hostPat, srcId, dstId, envNoDest, suRef, duRef, serverProgressMsg, pure, Pure.pure])

theorem forall₂_mem_right {α β : Type} {Q : α → β → Prop} :
    ∀ {l : List α} {bs : List β}, List.Forall₂ Q l bs → ∀ b ∈ bs, ∃ a ∈ l, Q a b := by
  intro l bs h
  induction h with
  | nil =>
    intro b hb
    exact absurd hb (by simp)
  | cons hq _ ih =>
    intro b hb
    rcases List.mem_cons.mp hb with rfl | hb
    · exact ⟨_, by simp, hq⟩
    · obtain ⟨a, ha, hQ⟩ := ih b hb
      exact ⟨a, by simp [ha], hQ⟩

/-- C5 (counterexample): a source entry with mode `100755` is submitted to the
destination with mode `100755`, not the claimed fixed `100644`: the server
forwards the source-reported mode. -/
theorem C5_source_mode_forwarded_cex :
    lookupA envMode.trees (srcId, "main") = some [⟨"x.sh", "sx", "blob", some "100755"⟩] ∧
    ApiCall.createTree dstId [⟨"x.sh", "100755", "blob", "blob2"⟩] "tree3"
      ∈ (runServer envMode suRef duRef).2.trace := by
  refine ⟨by decide, ?_⟩ <;>
    simp [runServer, mirrorRepoServer, serverValidateSource, serverValidateDest,
      serverListBranches, serverFetchTree, serverWipe, serverCopyDefault, serverCommitDefault,
      serverReplicate, replicateBranches, replicateOne, copyBatches, copyWindows, mapMList,
      collectPages, windows, windowsAux, copyBlobServer, getRepoM, getTreeM, getBlobM,
      createBlobM, createTreeM, createCommitM, getRefM, updateRefM, createRefM, bind_run,
      logM, recordM, freshShaM, readState, modifySt, mthrow, mcatch, mret, lookupA, initSt,
      parseRepoUrl, dropGitSuffix, findHostMatch, matchHostAt, hostPat, srcId, dstId, envMode,
      suRef, duRef, serverProgressMsg, pure, Pure.pure] <;>
  decide

/-- C5 (amended): only the client engine fixes the mode at `100644`; the
server engine submits `modeOrDefault` of the source-reported mode — the
source mode with a `100644` fallback — so executable bits survive on the
served path. -/
theorem C5_mode_amended (env : Env) (src dst : RepoId) (l : List SourceTreeEntry) (s : MSt)
    (bsC bsS : List NewTreeEntry) (sC sS : MSt)
    (hC : copyBatches 5 (copyBlobClient env src dst) (some clientProgressMsg) l s
      = (Except.ok bsC, sC))
    (hS : copyBatches 10 (copyBlobServer env src dst) (some serverProgressMsg) l s
      = (Except.ok bsS, sS)) :
    (∀ b ∈ bsC, b.mode = "100644") ∧
    List.Forall₂ (fun a b => b.mode = modeOrDefault a.mode ∧ b.path = a.path) l bsS := by
  constructor
  · obtain ⟨res, s1, heq, _, _, _, hQ, _⟩ :=
      copyBatches_spec (copyBlobClient env src dst) (copyBlobClient_point env src dst)
        5 (some clientProgressMsg) l s
    rw [heq] at hC
    injection hC with hres _
    intro b hb
    obtain ⟨a, _, hQa⟩ := forall₂_mem_right (hQ bsC hres) b hb
    exact hQa.1
  · obtain ⟨res, s1, heq, _, _, _, hQ, _⟩ :=
      copyBatches_spec (copyBlobServer env src dst) (copyBlobServer_point env src dst)
        10 (some serverProgressMsg) l s
    rw [heq] at hS
    injection hS with hres _
    exact hQ bsS hres

theorem C5_mode_amended_witness :
    (∀ b ∈ ([⟨"x.sh", "100644", "blob", "blob0"⟩] : List NewTreeEntry), b.mode = "100644") ∧
    List.Forall₂ (fun (a : SourceTreeEntry) (b : NewTreeEntry) =>
        b.mode = modeOrDefault a.mode ∧ b.path = a.path) lMode
      ([⟨"x.sh", "100755", "blob", "blob0"⟩] : List NewTreeEntry) :=
  C5_mode_amended envMode srcId dstId lMode (initSt envMode)
    [⟨"x.sh", "100644", "blob", "blob0"⟩] [⟨"x.sh", "100755", "blob", "blob0"⟩]
    (MSt.mk ["Copiados 1/1 arquivos..."]
      [ApiCall.getBlob srcId "sx", ApiCall.createBlob dstId "X" "utf-8" "blob0"] 1
      [((dstId, "main"), "old")])
    (MSt.mk ["📦 1/1 arquivos copiados"]
      [ApiCall.getBlob srcId "sx", ApiCall.createBlob dstId "X" "utf-8" "blob0"] 1
      [((dstId, "main"), "old")])
    (by
      simp [copyBatches, copyWindows, mapMList, windows, windowsAux, copyBlobClient,
        getBlobM, createBlobM, bind_run, logM, recordM, freshShaM, mthrow, mret, readState,
        modifySt, lookupA, initSt, clientProgressMsg, envMode, srcId, dstId, lMode, pure,
        Pure.pure] <;> decide)
    (by
      simp [copyBatches, copyWindows, mapMList, windows, windowsAux, copyBlobServer,
        modeOrDefault, getBlobM, createBlobM, bind_run, logM, recordM, freshShaM, mthrow,
        mret, readState, modifySt, lookupA, initSt, serverProgressMsg, envMode, srcId, dstId,
        lMode, pure, Pure.pure] <;> decide)

/-- C6: both batch copy engines, run with window size `w` on an entry list of
length `N`, emit exactly `ceil(N/w) = (N + w - 1) / w` cumulative progress
lines on success, and the last one reports `N` of `N` files copied. -/
theorem C6_progress_lines (w : Nat) (hw : 0 < w) (env : Env) (src dst : RepoId)
    (l : List SourceTreeEntry) (s : MSt) :
    (∃ res s1 lg, copyBatches w (copyBlobClient env src dst) (some clientProgressMsg) l s
        = (res, s1) ∧ s1.logs = s.logs ++ lg ∧
      ∀ bs, res = Except.ok bs →
        lg.length = (l.length + w - 1) / w ∧
        (l ≠ [] → lg.getLast? = some (clientProgressMsg l.length l.length))) ∧
    (∃ res s1 lg, copyBatches w (copyBlobServer env src dst) (some serverProgressMsg) l s
        = (res, s1) ∧ s1.logs = s.logs ++ lg ∧
      ∀ bs, res = Except.ok bs →
        lg.length = (l.length + w - 1) / w ∧
        (l ≠ [] → lg.getLast? = some (serverProgressMsg l.length l.length))) :=
  ⟨copyBatches_progress _ (copyBlobClient_point env src dst) w hw clientProgressMsg l s,
   copyBatches_progress _ (copyBlobServer_point env src dst) w hw serverProgressMsg l s⟩

theorem C6_progress_lines_witness :
    (∃ res s1 lg, copyBatches 5 (copyBlobClient envMode srcId dstId)
        (some clientProgressMsg) lMode (initSt envMode) = (res, s1) ∧
      s1.logs = (initSt envMode).logs ++ lg ∧
      ∀ bs, res = Except.ok bs →
        lg.length = (lMode.length + 5 - 1) / 5 ∧
        (lMode ≠ [] → lg.getLast? = some (clientProgressMsg lMode.length lMode.length))) ∧
    (∃ res s1 lg, copyBatches 5 (copyBlobServer envMode srcId dstId)
        (some serverProgressMsg) lMode (initSt envMode) = (res, s1) ∧
      s1.logs = (initSt envMode).logs ++ lg ∧
      ∀ bs, res = Except.ok bs →
        lg.length = (lMode.length + 5 - 1) / 5 ∧
        (lMode ≠ [] → lg.getLast? = some (serverProgressMsg lMode.length lMode.length))) :=
  C6_progress_lines 5 (by decide) envMode srcId dstId lMode (initSt envMode)

/-- C7 (counterexample): the host pattern is matched as an unanchored
substring, exactly like the source regular expression, so a URL whose host is
not github.com is accepted rather than rejected. -/
theorem C7_wrong_host_cex :
    parseRepoUrl "https://evilgithub.com/a/b" = some ("a", "b") ∧
    parseRepoUrl "https://gitlab.com/x/github.com/a/b" = some ("a", "b") := by
  decide

/-- C7 (amended): the parser is a pure function: a well-formed URL under the
github.com host yields its owner/name pair, strings with no host match or no
path segments yield none, and a server run on an unparsable locator fails
with the invalid-URL error before any API call is recorded. -/
theorem C7_parse_amended (o n : String)
    (ho : o.data ≠ []) (hn : n.data ≠ [])
    (ho2 : ∀ c ∈ o.data, c ≠ '/') (hn2 : ∀ c ∈ n.data, c ≠ '/')
    (hg : List.isSuffixOf ".git".data
      ("https://github.com/" ++ o ++ "/" ++ n).data = false) :
    parseRepoUrl ("https://github.com/" ++ o ++ "/" ++ n) = some (o, n) ∧
    parseRepoUrl "https://github.com" = none ∧
    parseRepoUrl "no url at all" = none ∧
    ∀ env du, ∃ st, runServer env "no url at all" du =
      (Except.error ("URL inválida: " ++ "no url at all"), st) ∧ st.trace = [] := by
  refine ⟨parseRepoUrl_roundtrip o n ho hn ho2 hn2 hg, by decide, by decide, ?_⟩
  intro env du
  exact runServer_parse_fail env _ du (by decide)

theorem C7_parse_amended_witness :
    parseRepoUrl ("https://github.com/" ++ "owner" ++ "/" ++ "repo")
      = some ("owner", "repo") ∧
    parseRepoUrl "https://github.com" = none ∧
    parseRepoUrl "no url at all" = none ∧
    ∀ env du, ∃ st, runServer env "no url at all" du =
      (Except.error ("URL inválida: " ++ "no url at all"), st) ∧ st.trace = [] :=
  C7_parse_amended "owner" "repo" (by decide) (by decide) (by decide) (by decide) (by decide)

/-- C8: a failure replicating one secondary branch is caught at the loop
boundary as a warning naming the branch and the loop continues: the loop
itself always returns success.  On the three-branch scenario with the middle
branch's tree missing, the run reaches the summary, exactly one warning
names `b2`, and `b3`'s commit and ref exist at the destination. -/
theorem C8_branch_isolation (env : Env) (src dst : RepoId) (sBranch baseCommit : String)
    (bs : List BranchInfo) (s : MSt) :
    (∃ s1 t lg, replicateBranches env src dst sBranch baseCommit bs s = (Except.ok (), s1) ∧
      s1.trace = s.trace ++ t ∧ s1.logs = s.logs ++ lg ∧
      (∀ b ∈ bs, b.name ≠ sBranch → lookupA env.trees (src, b.commitSha) = none →
        ∃ e, ("⚠️ Erro ao copiar branch \x27" ++ b.name ++ "\x27: " ++ e) ∈ lg) ∧
      (∀ b ∈ bs, b.name ≠ sBranch → branchReady env src b →
        ("🔀 Branch \x27" ++ b.name ++ "\x27 copiado") ∈ lg ∧
        ∃ trSha ps sha,
          ApiCall.createCommit dst ("📦 Mirror branch: " ++ b.name) trSha ps sha ∈ t)) ∧
    ((runServer envIso suRef duRef).1 = Except.ok () ∧
     ("⚠️ Erro ao copiar branch \x27b2\x27: GitHub API 404: tree sha2")
        ∈ (runServer envIso suRef duRef).2.logs ∧
     (runServer envIso suRef duRef).2.logs =
       ["🔍 Validando repositório de origem...", "✅ Origem: u/src (branch: main, público)",
        "🔍 Validando repositório de destino...", "✅ Destino: u/dst (branch: main, público)",
        "📋 Obtendo branches da origem...", "📋 3 branch(es) encontrado(s)",
        "📂 Obtendo árvore de arquivos da origem...", "📂 1 arquivo(s) encontrado(s)",
        "🗑️ Limpando repositório de destino...", "✅ Destino limpo", "📦 Copiando arquivos...",
        "📦 1/1 arquivos copiados", "🌳 Criando árvore no destino...",
        "🔀 Copiando branches adicionais...",
        "⚠️ Erro ao copiar branch \x27b2\x27: GitHub API 404: tree sha2",
        "🔀 Branch \x27b3\x27 copiado", "✅ Mirror concluído com sucesso!",
        "📊 Resumo: 1 arquivos, 3 branch(es) copiado(s)"] ∧
     ("🔀 Branch \x27b3\x27 copiado") ∈ (runServer envIso suRef duRef).2.logs ∧
     ApiCall.createCommit dstId "📦 Mirror branch: b3" "tree6" ["commit4"] "commit7"
        ∈ (runServer envIso suRef duRef).2.trace ∧
     ApiCall.createRef dstId "b3" "commit7" ∈ (runServer envIso suRef duRef).2.trace ∧
     (runServer envIso suRef duRef).2.logs.getLast? =
        some "📊 Resumo: 1 arquivos, 3 branch(es) copiado(s)") := by
  constructor
  · obtain ⟨s1, t, lg, heq, htr, hlg, _, hnone, hready⟩ :=
      replicateBranches_spec env src dst sBranch baseCommit bs s
    exact ⟨s1, t, lg, heq, htr, hlg, hnone, hready⟩
  · refine ⟨?_, ?_, ?_, ?_, ?_, ?_, ?_⟩ <;>
      simp [runServer, mirrorRepoServer, serverValidateSource, serverValidateDest,
        serverListBranches, serverFetchTree, serverWipe, serverCopyDefault,
        serverCommitDefault, serverReplicate, replicateBranches, replicateOne, copyBatches,
        copyWindows, mapMList, collectPages, windows, windowsAux, copyBlobServer, getRepoM,
        getTreeM, getBlobM, createBlobM, createTreeM, createCommitM, getRefM, updateRefM,
        createRefM, bind_run, logM, recordM, freshShaM, readState, modifySt, mthrow, mcatch,
        mret, lookupA, initSt, parseRepoUrl, dropGitSuffix, findHostMatch, matchHostAt,
        hostPat, srcId, dstId, envIso, suRef, duRef, serverProgressMsg, pure,
        Pure.pure] <;>
    decide

/-- C10: replaying a successful server response emits the start entry and then
every server log line in order, each paired with the severity read off its
leading characters: `✅` becomes success, else `⚠️` warn, else `❌` error,
anything else info. -/
theorem C10_replay_order_and_icons (logs : List String) :
    mirrorRepoClientSide (ServeResult.ok logs) =
      (startEntry :: logs.map (fun m => (m, parseIcon m)), none) ∧
    (mirrorRepoClientSide (ServeResult.ok logs)).1.map Prod.fst =
      "Iniciando mirror via servidor..." :: logs ∧
    (∀ m : String, m.startsWith "✅" = true → parseIcon m = LogType.success) ∧
    (∀ m : String, m.startsWith "✅" = false → m.startsWith "⚠️" = true →
      parseIcon m = LogType.warn) ∧
    (∀ m : String, m.startsWith "✅" = false → m.startsWith "⚠️" = false →
      m.startsWith "❌" = true → parseIcon m = LogType.error) ∧
    (∀ m : String, m.startsWith "✅" = false → m.startsWith "⚠️" = false →
      m.startsWith "❌" = false → parseIcon m = LogType.info) := by
  refine ⟨rfl, ?_, ?_, ?_, ?_, ?_⟩
  · have hmap : ∀ l : List String,
        List.map Prod.fst (List.map (fun m => (m, parseIcon m)) l) = l := by
      intro l
      induction l with
      | nil => rfl
      | cons a t ih2 => simp [ih2]
    simp [mirrorRepoClientSide, startEntry, hmap]
  · intro m h1
    simp [parseIcon, h1]
  · intro m h1 h2
    simp [parseIcon, h1, h2]
  · intro m h1 h2 h3
    simp [parseIcon, h1, h2, h3]
  · intro m h1 h2 h3
    simp [parseIcon, h1, h2, h3]

end GhMirror
